import Mathlib

/-!
Durak server (`server.js`): rules and turn-state engine.

A shallow embedding of the game logic of `server.js`.

* A socket (`ws`) is a natural number; the `clients` and `playersScores`
  Maps are association lists in insertion order.
* A value that JavaScript may leave `undefined` (the result of `deck.pop()`
  on an empty deck, `trumpCard`) is an `Option`; a number that may be `NaN`
  (`x % 0`) is an `Option Nat`.
* A handler that throws an uncaught `TypeError` returns `none`.
* `Math.random` is an oracle `rand`: `rand i` is the index `j` drawn by
  `createDeck` in the loop iteration with counter `i`.
-/

namespace Durak

/-! ## Cards and the rule evaluator -/

/-- A card `{ suit, rank }`. -/
structure Card where
  suit : String
  rank : String
deriving DecidableEq

/-- The constant `maxPlayers`. -/
def maxPlayers : Nat := 6

/-- The constant `suits`. -/
def suits : List String := ["♠", "♥", "♦", "♣"]

/-- The constant `ranks`. -/
def ranks : List String := ["6", "7", "8", "9", "10", "В", "Д", "К", "Т"]

/-- The array `order` local to `rankValue`. -/
def rankOrder : List String := ["6", "7", "8", "9", "10", "В", "Д", "К", "Т"]

/-- JavaScript `Array.prototype.indexOf`: the first position of `x`, or `-1`. -/
def jsIndexOf (xs : List String) (x : String) : Int :=
  if xs.indexOf x < xs.length then (xs.indexOf x : Int) else -1

/-- The function `rankValue(rank)`: `order.indexOf(rank)`. -/
def rankValue (rank : String) : Int :=
  jsIndexOf rankOrder rank

/-- The function `canBeat(card, attackCard, trumpSuit)`. -/
def canBeat (card attackCard : Card) (trumpSuit : String) : Bool :=
  if card.suit = attackCard.suit ∧ rankValue card.rank > rankValue attackCard.rank then
    true
  else if card.suit = trumpSuit ∧ attackCard.suit ≠ trumpSuit then
    true
  else
    false

/-! ## Deck construction -/

/-- The deck built by the two nested `forEach` loops of `createDeck`,
  before shuffling. -/
def baseDeck : List Card :=
  suits.flatMap (fun suit => ranks.map (fun rank => { suit := suit, rank := rank }))

/-- The destructuring swap `[deck[i], deck[j]] = [deck[j], deck[i]]`, for
  positions inside the array (the only ones the loop produces). -/
def swap (deck : List Card) (i j : Nat) : List Card :=
  match deck[i]?, deck[j]? with
  | some a, some b => (deck.set i b).set j a
  | _, _ => deck

/-- The shuffling loop `for (let i = ...; i > 0; i--)` entered with counter
  `i`; `rand i` is `Math.floor(Math.random() * (i + 1))` of that iteration. -/
def shuffleFrom (rand : Nat → Nat) : Nat → List Card → List Card
  | 0, deck => deck
  | i + 1, deck => shuffleFrom rand i (swap deck (i + 1) (rand (i + 1)))

/-- The function `createDeck()`. -/
def createDeck (rand : Nat → Nat) : List Card :=
  shuffleFrom rand (baseDeck.length - 1) baseDeck

/-! ## Table state -/

/-- A socket: the key of the `clients` Map and the addressee of an event. -/
abbrev Ws := Nat

/-- The object stored in `clients` for each socket: `{ hand: [...] }`.  An
  entry of the hand is `none` where `deck.pop()` returned `undefined`. -/
structure Player where
  hand : List (Option Card)
deriving DecidableEq

/-- The payload of a message passed to `send`, by its `type` field. -/
inductive Msg where
  | your_hand (hand : List (Option Card))
  | trump (card : Option Card)
  | your_turn
  | waiting
  | table_update (cards : List Card)
  | error (message : String)
  | round_end (scores : List (Ws × Nat)) (remainingCards : List (Ws × Nat))
      (tableCards : List Card)
  | game_over (winners : List (Ws × Nat))
  | game_end
  | welcome (count : Nat)
deriving DecidableEq

/-- One call of `ws.send`: the addressee and the payload. -/
abbrev Event := Ws × Msg

/-- The module-level variables of `server.js`, with the set of sockets whose
  `readyState` is `OPEN`. -/
structure State where
  clients : List (Ws × Player)
  deck : List (Option Card)
  gameInProgress : Bool
  tableCards : List (Ws × Card)
  currentPlayerOrder : List Ws
  attackerIndex : Option Nat
  defenderIndex : Option Nat
  trumpCard : Option Card
  playersScores : List (Ws × Nat)
  openSockets : List Ws
deriving DecidableEq

/-- The variables as the module initialises them. -/
def initialState : State :=
  { clients := [], deck := [], gameInProgress := false, tableCards := [],
    currentPlayerOrder := [], attackerIndex := some 0, defenderIndex := some 1,
    trumpCard := none, playersScores := [], openSockets := [] }

/-- The method `Map.prototype.get`. -/
def mapGet {β : Type} : List (Ws × β) → Ws → Option β
  | [], _ => none
  | (k, v) :: rest, ws => if k = ws then some v else mapGet rest ws

/-- The method `Map.prototype.set`: an existing key keeps its position, a new key is
  appended. -/
def mapSet {β : Type} : List (Ws × β) → Ws → β → List (Ws × β)
  | [], ws, v => [(ws, v)]
  | (k, v0) :: rest, ws, v =>
    if k = ws then (k, v) :: rest else (k, v0) :: mapSet rest ws v

/-- The method `Map.prototype.delete`. -/
def mapDelete {β : Type} : List (Ws × β) → Ws → List (Ws × β)
  | [], _ => []
  | (k, v) :: rest, ws => if k = ws then rest else (k, v) :: mapDelete rest ws

/-- The function `send(ws, data)`: the message goes out only when the socket is open. -/
def send (s : State) (ws : Ws) (data : Msg) : List Event :=
  if ws ∈ s.openSockets then [(ws, data)] else []

/-- The function `broadcast(data)`: `send` to every key of `clients`, in Map order. -/
def broadcast (s : State) (data : Msg) : List Event :=
  s.clients.flatMap (fun entry => send s entry.1 data)

/-- The function `getTableCards()`. -/
def getTableCards (s : State) : List Card :=
  s.tableCards.map (fun tc => tc.2)

/-- The function `endGame()`. -/
def endGame (s : State) : List Event :=
  broadcast s Msg.game_end

/-- The read `currentPlayerOrder[index]`: `none` is `undefined` (index `NaN`
  or past the end). -/
def orderAt (order : List Ws) (index : Option Nat) : Option Ws :=
  match index with
  | none => none
  | some i => order[i]?

/-- The function `nextTurn()`.  The call `send(undefined, ...)` throws on reading `readyState`. -/
def nextTurn (s : State) : Option (List Event) :=
  if s.currentPlayerOrder.length < 2 then
    some (endGame s)
  else
    match orderAt s.currentPlayerOrder s.attackerIndex,
          orderAt s.currentPlayerOrder s.defenderIndex with
    | some attackerWS, some defenderWS =>
      some (send s attackerWS Msg.your_turn ++ send s defenderWS Msg.waiting)
    | _, _ => none

/-- The expression `(index + 1) % length`; `none` is `NaN`. -/
def advance (index : Option Nat) (length : Nat) : Option Nat :=
  match index with
  | none => none
  | some i => if length = 0 then none else some ((i + 1) % length)

/-- The function `switchRoles()`. -/
def switchRoles (s : State) : Option (State × List Event) :=
  let s1 := { s with
    attackerIndex := advance s.attackerIndex s.currentPlayerOrder.length,
    defenderIndex := advance s.defenderIndex s.currentPlayerOrder.length }
  (nextTurn s1).map (fun evs => (s1, evs))

/-- The test `player.hand.some(c => c.suit === card.suit && c.rank === card.rank)`:
  stops at the first match, throws (`none`) on reaching an `undefined` entry. -/
def handHas : List (Option Card) → Card → Option Bool
  | [], _ => some false
  | none :: _, _ => none
  | some c :: rest, card =>
    if c.suit = card.suit ∧ c.rank = card.rank then some true else handHas rest card

/-- The filter of `removeCardFromHand`: keeps the entries that differ from
  `card`, throws (`none`) on an `undefined` entry. -/
def filterOut : List (Option Card) → Card → Option (List (Option Card))
  | [], _ => some []
  | none :: _, _ => none
  | some c :: rest, card =>
    (filterOut rest card).map (fun kept =>
      if ¬ (c.suit = card.suit ∧ c.rank = card.rank) then some c :: kept else kept)

/-- The function `removeCardFromHand(player, card)`, the player object being the one
  stored in `clients` under `ws`. -/
def removeCardFromHand (s : State) (ws : Ws) (player : Player) (card : Card) :
    Option State :=
  (filterOut player.hand card).map (fun kept =>
    { s with clients := mapSet s.clients ws { hand := kept } })

/-- The scoring loop of `endRound`: each client with a non-empty hand gets
  `(playersScores.get(ws) || 0) + 1`. -/
def tallyRoundScores (clients : List (Ws × Player)) (scores : List (Ws × Nat)) :
    List (Ws × Nat) :=
  clients.foldl (fun sc entry =>
    if entry.2.hand.length > 0 then
      mapSet sc entry.1 ((mapGet sc entry.1).getD 0 + 1)
    else sc) scores

/-- The call `Math.min(...values)`; `none` is `Infinity`, the result on no values. -/
def minScore : List Nat → Option Nat
  | [] => none
  | x :: rest =>
    match minScore rest with
    | none => some x
    | some m => some (min x m)

/-- The `winners` of `announceWinner`: the entries of `playersScores` whose
  score `=== minScore`. -/
def winners (scores : List (Ws × Nat)) : List (Ws × Nat) :=
  scores.filter (fun entry => minScore (scores.map (fun e => e.2)) = some entry.2)

/-- The function `announceWinner()`.  A socket stands for its own remote address. -/
def announceWinner (s : State) : List Event :=
  broadcast s (Msg.game_over (winners s.playersScores))

/-- The function `endRound()`. -/
def endRound (s : State) : State × List Event :=
  let s1 := { s with playersScores := tallyRoundScores s.clients s.playersScores }
  let summary := Msg.round_end s1.playersScores
    (s1.clients.map (fun entry => (entry.1, entry.2.hand.length))) (getTableCards s1)
  let s2 := { s1 with gameInProgress := false }
  (s2, s1.clients.flatMap (fun entry => send s1 entry.1 summary) ++ announceWinner s2)

/-- The function `handleAttack(ws, card)`. -/
def handleAttack (s : State) (ws : Ws) (card : Card) : Option (State × List Event) :=
  match mapGet s.clients ws with
  | none => none
  | some player =>
    match handHas player.hand card with
    | none => none
    | some false => some (s, send s ws (Msg.error "У вас нет такой карты"))
    | some true =>
      match removeCardFromHand
          { s with tableCards := s.tableCards ++ [(ws, card)] } ws player card with
      | none => none
      | some s2 =>
        match switchRoles s2 with
        | none => none
        | some (s3, evs) =>
          some (s3, broadcast s2 (Msg.table_update (getTableCards s2)) ++ evs)

/-- The function `handleDefend(ws, card)`.  Reading `tableCards[0].card` on an empty table
  and `trumpCard.suit` on a missing trump card throw. -/
def handleDefend (s : State) (ws : Ws) (card : Card) : Option (State × List Event) :=
  match mapGet s.clients ws with
  | none => none
  | some player =>
    match handHas player.hand card with
    | none => none
    | some false => some (s, send s ws (Msg.error "У вас нет такой карты"))
    | some true =>
      match s.tableCards.head?, s.trumpCard with
      | some first, some trumpCard =>
        if ¬ canBeat card first.2 trumpCard.suit then
          some (s, send s ws (Msg.error "Эту карту побить нельзя"))
        else
          match removeCardFromHand
              { s with tableCards := s.tableCards ++ [(ws, card)] } ws player card with
          | none => none
          | some s2 =>
            some ((endRound s2).1,
              broadcast s2 (Msg.table_update (getTableCards s2)) ++ (endRound s2).2)
      | _, _ => none

/-! ## Starting a game -/

/-- The call `deck.pop()`: the last card (or `undefined`) and the remaining deck. -/
def jsPop (deck : List Card) : Option Card × List Card :=
  (deck.getLast?, deck.dropLast)

/-- The loop `for (let i = 0; i < 6; i++) player.hand.push(deck.pop())` with
  `n` iterations left. -/
def dealHand : Nat → List Card → List (Option Card) → List (Option Card) × List Card
  | 0, deck, hand => (hand, deck)
  | n + 1, deck, hand => dealHand n (jsPop deck).2 (hand ++ [(jsPop deck).1])

/-- The dealing loop of `startGame` over the entries of `clients`: the new
  entries, the deck left, and the `your_hand` messages. -/
def dealAll (s : State) :
    List (Ws × Player) → List Card → List (Ws × Player) × List Card × List Event
  | [], deck => ([], deck, [])
  | entry :: rest, deck =>
    let dealt := dealHand 6 deck []
    let more := dealAll s rest dealt.2
    ((entry.1, { hand := dealt.1 }) :: more.1, more.2.1,
      send s entry.1 (Msg.your_hand dealt.1) ++ more.2.2)

/-- The function `startGame()`. -/
def startGame (rand : Nat → Nat) (s : State) : Option (State × List Event) :=
  let dealt := dealAll s s.clients (createDeck rand)
  let trumpCard := (jsPop dealt.2.1).1
  let s1 : State :=
    { clients := dealt.1,
      deck := trumpCard :: (jsPop dealt.2.1).2.map some,
      gameInProgress := true,
      tableCards := [],
      currentPlayerOrder := dealt.1.map (fun entry => entry.1),
      attackerIndex := some 0,
      defenderIndex := some 1,
      trumpCard := trumpCard,
      playersScores := [],
      openSockets := s.openSockets }
  (nextTurn s1).map (fun evs =>
    (s1, dealt.2.2 ++ broadcast s1 (Msg.trump trumpCard) ++ evs))

/-- The function `tryStartGame()`. -/
def tryStartGame (rand : Nat → Nat) (s : State) : Option (State × List Event) :=
  if s.clients.length ≥ 2 ∧ ¬ s.gameInProgress then startGame rand s else some (s, [])

/-! ## Transport handlers -/

/-- The parsed message of a seated socket, by its `type`. -/
inductive Intent where
  | start_game
  | attack (card : Card)
  | defend (card : Card)
  | pass
deriving DecidableEq

/-- The `connection` handler for a new socket `ws` (open on arrival). -/
def onConnection (rand : Nat → Nat) (s : State) (ws : Ws) : Option (State × List Event) :=
  if s.clients.length ≥ maxPlayers then
    some ({ s with openSockets := s.openSockets.filter (fun w => w ≠ ws) },
      [(ws, Msg.error "Лимит игроков достигнут")])
  else
    let s1 := { s with
      clients := mapSet s.clients ws { hand := [] },
      openSockets := ws :: s.openSockets }
    match tryStartGame rand s1 with
    | none => none
    | some (s2, evs) => some (s2, send s1 ws (Msg.welcome s1.clients.length) ++ evs)

/-- The `message` handler of socket `ws`. -/
def onMessage (rand : Nat → Nat) (s : State) (ws : Ws) (msg : Intent) :
    Option (State × List Event) :=
  match msg with
  | Intent.start_game =>
    if ¬ s.gameInProgress ∧ s.clients.length ≥ 2 then startGame rand s else some (s, [])
  | Intent.attack card => handleAttack s ws card
  | Intent.defend card => handleDefend s ws card
  | Intent.pass => switchRoles s

/-- The `close` handler of socket `ws`. -/
def onClose (s : State) (ws : Ws) : State :=
  { s with
    clients := mapDelete s.clients ws,
    openSockets := s.openSockets.filter (fun w => w ≠ ws) }

/-! ## Runs of the server -/

/-- What the transport delivers: a new connection, a parsed message of a
  socket, or the close of a socket. -/
inductive Input where
  | connection (ws : Ws)
  | message (ws : Ws) (msg : Intent)
  | close (ws : Ws)
deriving DecidableEq

/-- One delivery, with the draws `rand` of the shuffle it may trigger. -/
def step (rand : Nat → Nat) (s : State) : Input → Option (State × List Event)
  | Input.connection ws => onConnection rand s ws
  | Input.message ws msg => onMessage rand s ws msg
  | Input.close ws => some (onClose s ws, [])

/-- The relation `Reachable allowed s t`: the server gets from `s` to `t` by deliveries
  that all satisfy `allowed`, none of them throwing. -/
inductive Reachable (allowed : Input → Prop) : State → State → Prop where
  | refl (s : State) : Reachable allowed s s
  | tail {s t u : State} (rand : Nat → Nat) (input : Input) (evs : List Event) :
      Reachable allowed s t → allowed input → step rand t input = some (u, evs) →
      Reachable allowed s u

/-- An `attack`, `defend` or `pass` message. -/
def Input.isPlay : Input → Bool
  | Input.message _ (Intent.attack _) => true
  | Input.message _ (Intent.defend _) => true
  | Input.message _ Intent.pass => true
  | _ => false

/-- An `attack`, `defend` or `pass` message, or the close of a socket. -/
def Input.isPlayOrLeave : Input → Bool
  | Input.close _ => true
  | input => input.isPlay

/-- The draws are in range: the index drawn at counter `i` is in `[0, i]`. -/
def ValidDraws (rand : Nat → Nat) : Prop :=
  ∀ i, rand i ≤ i

/-- Every card in some hand followed by every card on the table. -/
def allCards (s : State) : List (Option Card) :=
  s.clients.flatMap (fun entry => entry.2.hand) ++ s.tableCards.map (fun tc => some tc.2)

/-- The attack of `ws` with `card` passes the possession test of `handleAttack`. -/
def attackAccepted (s : State) (ws : Ws) (card : Card) : Bool :=
  match mapGet s.clients ws with
  | none => false
  | some player => handHas player.hand card = some true

/-- The state after the listed attacks in a row, each of them accepted. -/
def runAttacks : State → List (Ws × Card) → Option State
  | s, [] => some s
  | s, (ws, card) :: rest =>
    if attackAccepted s ws card then
      match handleAttack s ws card with
      | none => none
      | some (s1, _) => runAttacks s1 rest
    else none

/-- A table of `n` sockets `0, ..., n - 1`, connected and open, no game
  started yet. -/
def lobby (n : Nat) : State :=
  { initialState with
    clients := (List.range n).map (fun ws => (ws, { hand := [] })),
    openSockets := List.range n }

/-- The turn indices are two distinct positions of the turn order. -/
def IndicesValid (s : State) : Prop :=
  ∃ a d, s.attackerIndex = some a ∧ s.defenderIndex = some d ∧
    a < s.currentPlayerOrder.length ∧ d < s.currentPlayerOrder.length ∧ a ≠ d

/-- The hand dealt to socket `0` at a table of two from the deck in base order. -/
def sampleHand0 : List Card :=
  [⟨"♣", "Т"⟩, ⟨"♣", "К"⟩, ⟨"♣", "Д"⟩, ⟨"♣", "В"⟩, ⟨"♣", "10"⟩, ⟨"♣", "9"⟩]

/-- The hand dealt to socket `1` at a table of two from the deck in base order. -/
def sampleHand1 : List Card :=
  [⟨"♣", "8"⟩, ⟨"♣", "7"⟩, ⟨"♣", "6"⟩, ⟨"♦", "Т"⟩, ⟨"♦", "К"⟩, ⟨"♦", "Д"⟩]

/-- The state after `startGame` at `lobby 2` with the draws `rand i = i`, which
  leave the deck in its base order. -/
def sampleGame : State :=
  { clients := [(0, { hand := sampleHand0.map some }), (1, { hand := sampleHand1.map some })],
    deck := some ⟨"♦", "В"⟩ :: (baseDeck.take 23).map some,
    gameInProgress := true,
    tableCards := [],
    currentPlayerOrder := [0, 1],
    attackerIndex := some 0,
    defenderIndex := some 1,
    trumpCard := some ⟨"♦", "В"⟩,
    playersScores := [],
    openSockets := [0, 1] }

/-- The events of `startGame` at `lobby 2` with the draws `rand i = i`. -/
def sampleGameEvents : List Event :=
  [(0, Msg.your_hand (sampleHand0.map some)), (1, Msg.your_hand (sampleHand1.map some)),
   (0, Msg.trump (some ⟨"♦", "В"⟩)), (1, Msg.trump (some ⟨"♦", "В"⟩)),
   (0, Msg.your_turn), (1, Msg.waiting)]

/-- The state `sampleGame` after socket `0` has attacked with the ace of clubs. -/
def sampleAfterAttack : State :=
  { sampleGame with
    clients := [(0, { hand := (sampleHand0.erase ⟨"♣", "Т"⟩).map some }),
                (1, { hand := sampleHand1.map some })],
    tableCards := [(0, ⟨"♣", "Т"⟩)],
    attackerIndex := some 1,
    defenderIndex := some 0 }

/-- The events of that attack. -/
def sampleAttackEvents : List Event :=
  [(0, Msg.table_update [⟨"♣", "Т"⟩]), (1, Msg.table_update [⟨"♣", "Т"⟩]),
   (1, Msg.your_turn), (0, Msg.waiting)]

/-- The state `sampleAfterAttack` after socket `1` has attacked with the eight
  of clubs. -/
def sampleAfterTwoAttacks : State :=
  { sampleAfterAttack with
    clients := [(0, { hand := (sampleHand0.erase ⟨"♣", "Т"⟩).map some }),
                (1, { hand := (sampleHand1.erase ⟨"♣", "8"⟩).map some })],
    tableCards := [(0, ⟨"♣", "Т"⟩), (1, ⟨"♣", "8"⟩)],
    attackerIndex := some 0,
    defenderIndex := some 1 }

/-- A new connection or the close of a socket. -/
def Input.isJoinOrLeave : Input → Bool
  | Input.connection _ => true
  | Input.close _ => true
  | _ => false

/-- The deliveries of a list in a row, all with the draws `rand`: the final
  state and all events emitted, or `none` once a handler throws. -/
def runInputs (rand : Nat → Nat) : State → List Input → Option (State × List Event)
  | s, [] => some (s, [])
  | s, input :: rest =>
    match step rand s input with
    | none => none
    | some (s1, evs) =>
      match runInputs rand s1 rest with
      | none => none
      | some (s2, more) => some (s2, evs ++ more)

/-- A `game_over` message. -/
def Msg.isGameOver : Msg → Bool
  | Msg.game_over _ => true
  | _ => false

/-- A game of three from `lobby 3`, the deck in base order: socket `2` lays
  the six of diamonds, socket `0` lays its six cards, socket `1` three cards,
  socket `2` two more cards, then socket `2` beats the six of diamonds with
  the nine.  The hands end with `0`, `3` and `2` cards. -/
def settleInputs : List Input :=
  [Input.message 0 Intent.start_game,
   Input.message 2 (Intent.attack ⟨"♦", "6"⟩),
   Input.message 0 (Intent.attack ⟨"♣", "Т"⟩),
   Input.message 0 (Intent.attack ⟨"♣", "К"⟩),
   Input.message 0 (Intent.attack ⟨"♣", "Д"⟩),
   Input.message 0 (Intent.attack ⟨"♣", "В"⟩),
   Input.message 0 (Intent.attack ⟨"♣", "10"⟩),
   Input.message 0 (Intent.attack ⟨"♣", "9"⟩),
   Input.message 1 (Intent.attack ⟨"♣", "8"⟩),
   Input.message 1 (Intent.attack ⟨"♣", "7"⟩),
   Input.message 1 (Intent.attack ⟨"♣", "6"⟩),
   Input.message 2 (Intent.attack ⟨"♦", "7"⟩),
   Input.message 2 (Intent.attack ⟨"♦", "8"⟩),
   Input.message 2 (Intent.defend ⟨"♦", "9"⟩)]

/-- The seated players at the end of `settleInputs`. -/
def settledClients : List (Ws × Player) :=
  [(0, { hand := [] }),
   (1, { hand := [some ⟨"♦", "Т"⟩, some ⟨"♦", "К"⟩, some ⟨"♦", "Д"⟩] }),
   (2, { hand := [some ⟨"♦", "В"⟩, some ⟨"♦", "10"⟩] })]

/-- Six connections in a row, of the sockets `0` to `5`. -/
def joinInputs : List Input :=
  [Input.connection 0, Input.connection 1, Input.connection 2,
   Input.connection 3, Input.connection 4, Input.connection 5]

/-- The state after `joinInputs` from the initial state, the deck in base
  order: the game started at the second connection, four more are seated. -/
def fullTable : State :=
  { sampleGame with
    clients := sampleGame.clients
      ++ [(2, { hand := [] }), (3, { hand := [] }), (4, { hand := [] }), (5, { hand := [] })],
    openSockets := [5, 4, 3, 2, 1, 0] }

/-- A state whose score mapping is `{0: 1, 1: 1, 2: 2}`. -/
def tiedScores : State :=
  { initialState with playersScores := [(0, 1), (1, 1), (2, 2)] }

/-- A game of six from `lobby 6`, the deck in base order: the game is
  started, then socket `0` lays the ace of clubs. -/
def sixInputs : List Input :=
  [Input.message 0 Intent.start_game,
   Input.message 0 (Intent.attack ⟨"♣", "Т"⟩)]

/-! ## Theorems -/

/-! ### Rule evaluator -/

/-- C1: `canBeat(defence, attack, trump)` is true exactly when the two cards
  have the same suit and the defence rank value is the greater, or the defence
  is a trump and the attack is not; in particular a trump against a trump of
  higher or equal rank value is not beaten.  It holds for all cards, so for
  those whose ranks are among the nine deck ranks. -/
theorem canBeat_iff (card attackCard : Card) (trumpSuit : String) :
    (canBeat card attackCard trumpSuit = true ↔
      (card.suit = attackCard.suit ∧ rankValue card.rank > rankValue attackCard.rank) ∨
      (card.suit = trumpSuit ∧ attackCard.suit ≠ trumpSuit)) ∧
    (card.suit = trumpSuit → attackCard.suit = trumpSuit →
      rankValue card.rank ≤ rankValue attackCard.rank →
      canBeat card attackCard trumpSuit = false) := by
  unfold canBeat
  constructor
  · split_ifs with h1 h2 <;> simp_all
  · intro h1 h2 h3
    split_ifs with h4 h5
    · omega
    · exact absurd h2 h5.2
    · rfl

/-! ### Deck -/

theorem swap_perm (deck : List Card) (i j : Nat) : (swap deck i j).Perm deck := by
  unfold swap
  split
  · rename_i a b ha hb
    obtain ⟨hi, hia⟩ := List.getElem?_eq_some.mp ha
    obtain ⟨hj, hjb⟩ := List.getElem?_eq_some.mp hb
    rw [List.perm_iff_count]
    intro c
    have hj2 : j < (deck.set i b).length := by simpa using hj
    rw [List.count_set _ _ _ _ hj2, List.count_set _ _ _ _ hi]
    have hget : (deck.set i b)[j] = b := by
      rw [List.getElem_set]
      split
      · rfl
      · exact hjb
    rw [hget, hia]
    have hle := List.boole_getElem_le_count c deck i hi
    rw [hia] at hle
    omega
  · exact List.Perm.refl _

theorem shuffleFrom_perm (rand : Nat → Nat) (i : Nat) (deck : List Card) :
    (shuffleFrom rand i deck).Perm deck := by
  induction i generalizing deck with
  | zero => exact List.Perm.refl _
  | succ n ih => exact (ih _).trans (swap_perm _ _ _)

theorem baseDeck_nodup : baseDeck.Nodup := by decide

theorem baseDeck_length : baseDeck.length = 36 := by decide

theorem createDeck_perm_base (rand : Nat → Nat) : (createDeck rand).Perm baseDeck :=
  shuffleFrom_perm rand _ _

theorem createDeck_length (rand : Nat → Nat) : (createDeck rand).length = 36 :=
  (createDeck_perm_base rand).length_eq.trans baseDeck_length

theorem createDeck_nodup (rand : Nat → Nat) : (createDeck rand).Nodup :=
  (createDeck_perm_base rand).nodup_iff.mpr baseDeck_nodup

/-- C2: for draws in range, `createDeck` returns 36 cards, no two of them
  equal, among them every pair of a suit and a rank: a permutation of the deck
  built before shuffling. -/
theorem createDeck_permutation (rand : Nat → Nat) (_h : ValidDraws rand) :
    (createDeck rand).length = 36 ∧ (createDeck rand).Nodup ∧
    (∀ suit ∈ suits, ∀ rank ∈ ranks, { suit := suit, rank := rank } ∈ createDeck rand) ∧
    (createDeck rand).Perm baseDeck := by
  refine ⟨createDeck_length rand, createDeck_nodup rand, ?_, createDeck_perm_base rand⟩
  intro suit hs rank hr
  rw [(createDeck_perm_base rand).mem_iff]
  unfold baseDeck
  rw [List.mem_flatMap]
  exact ⟨suit, hs, List.mem_map.mpr ⟨rank, hr, rfl⟩⟩

/-- Witness of C2: the draws that are all `0`. -/
theorem createDeck_permutation_witness :
    (createDeck (fun _ => 0)).length = 36 ∧ (createDeck (fun _ => 0)).Nodup ∧
    (∀ suit ∈ suits, ∀ rank ∈ ranks,
      { suit := suit, rank := rank } ∈ createDeck (fun _ => 0)) ∧
    (createDeck (fun _ => 0)).Perm baseDeck :=
  createDeck_permutation (fun _ => 0) (fun i => Nat.zero_le i)

/-! ### Dealing -/

theorem dealHand_reverse (n : Nat) (r : List Card) (hand : List (Option Card))
    (h : n ≤ r.length) :
    dealHand n r.reverse hand = (hand ++ (r.take n).map some, (r.drop n).reverse) := by
  induction n generalizing r hand with
  | zero => simp [dealHand]
  | succ k ih =>
    cases r with
    | nil => simp at h
    | cons c rest =>
      have hk : k ≤ rest.length := by simpa using h
      have h1 : (jsPop (c :: rest).reverse).2 = rest.reverse := by
        simp [jsPop, List.dropLast_concat]
      have h2 : (jsPop (c :: rest).reverse).1 = some c := by
        simp [jsPop]
      simp only [dealHand]
      rw [h1, h2, ih rest _ hk]
      simp

theorem dealAll_reverse (s : State) (clients : List (Ws × Player)) (r : List Card)
    (h : 6 * clients.length ≤ r.length) :
    (dealAll s clients r.reverse).1.flatMap (fun entry => entry.2.hand)
        = (r.take (6 * clients.length)).map some ∧
    (dealAll s clients r.reverse).2.1 = (r.drop (6 * clients.length)).reverse ∧
    (dealAll s clients r.reverse).1.map (fun entry => entry.1)
        = clients.map (fun entry => entry.1) ∧
    ∀ entry ∈ (dealAll s clients r.reverse).1, entry.2.hand.length = 6 := by
  induction clients generalizing r with
  | nil => simp [dealAll]
  | cons e rest ih =>
    have h6 : 6 ≤ r.length := by simp at h; omega
    have hrest : 6 * rest.length ≤ (r.drop 6).length := by simp at h ⊢; omega
    have hd := dealHand_reverse 6 r [] h6
    obtain ⟨ih1, ih2, ih3, ih4⟩ := ih (r.drop 6) hrest
    simp only [dealAll, hd, List.nil_append]
    refine ⟨?_, ?_, ?_, ?_⟩
    · rw [List.flatMap_cons, ih1]
      simp only [List.length_cons, ← List.map_append]
      congr 1
      rw [show 6 * (rest.length + 1) = 6 + 6 * rest.length by ring, List.take_add]
    · rw [ih2, List.drop_drop]
      simp only [List.length_cons]
      congr 2
      ring
    · simp [ih3]
    · intro entry hmem
      rcases List.mem_cons.mp hmem with rfl | hmem
      · simp; omega
      · exact ih4 entry hmem

theorem nextTurn_some (s : State) (a d : Nat) (ha : s.attackerIndex = some a)
    (hd : s.defenderIndex = some d)
    (hv : 2 ≤ s.currentPlayerOrder.length →
      a < s.currentPlayerOrder.length ∧ d < s.currentPlayerOrder.length) :
    ∃ evs, nextTurn s = some evs := by
  unfold nextTurn
  split_ifs with hlen
  · exact ⟨_, rfl⟩
  · obtain ⟨h1, h2⟩ := hv (by omega)
    simp only [ha, hd, orderAt, List.getElem?_eq_getElem h1, List.getElem?_eq_getElem h2]
    exact ⟨_, rfl⟩

theorem startGame_spec (rand : Nat → Nat) (s : State) (h : s.clients.length ≤ 6) :
    ∃ s1 evs, startGame rand s = some (s1, evs) ∧
      s1.clients.flatMap (fun entry => entry.2.hand)
        = ((createDeck rand).reverse.take (6 * s.clients.length)).map some ∧
      s1.trumpCard = ((createDeck rand).reverse.drop (6 * s.clients.length)).head? ∧
      s1.tableCards = [] ∧
      s1.currentPlayerOrder = s.clients.map (fun entry => entry.1) ∧
      s1.clients.map (fun entry => entry.1) = s.clients.map (fun entry => entry.1) ∧
      s1.attackerIndex = some 0 ∧ s1.defenderIndex = some 1 ∧
      (∀ entry ∈ s1.clients, entry.2.hand.length = 6) := by
  have hlen : 6 * s.clients.length ≤ (createDeck rand).reverse.length := by
    rw [List.length_reverse, createDeck_length]; omega
  obtain ⟨h1, h2, h3, h4⟩ := dealAll_reverse s s.clients (createDeck rand).reverse hlen
  rw [List.reverse_reverse] at h1 h2 h3 h4
  unfold startGame
  simp only []
  have hnt := nextTurn_some
    { clients := (dealAll s s.clients (createDeck rand)).1,
      deck := (jsPop (dealAll s s.clients (createDeck rand)).2.1).1 ::
        (jsPop (dealAll s s.clients (createDeck rand)).2.1).2.map some,
      gameInProgress := true,
      tableCards := [],
      currentPlayerOrder := (dealAll s s.clients (createDeck rand)).1.map (fun entry => entry.1),
      attackerIndex := some 0,
      defenderIndex := some 1,
      trumpCard := (jsPop (dealAll s s.clients (createDeck rand)).2.1).1,
      playersScores := [],
      openSockets := s.openSockets } 0 1 rfl rfl (by intro h; exact ⟨by omega, by omega⟩)
  obtain ⟨evs, hevs⟩ := hnt
  rw [hevs]
  refine ⟨_, _, rfl, h1, ?_, rfl, h3, h3, rfl, rfl, h4⟩
  simp only [jsPop, h2, List.getLast?_reverse]

/-! ### What a handler may do to the state -/

theorem card_eq_iff (c card : Card) : (c.suit = card.suit ∧ c.rank = card.rank) ↔ c = card := by
  cases c; cases card; simp

theorem switchRoles_state (s s1 : State) (evs : List Event) (h : switchRoles s = some (s1, evs)) :
    s1 = { s with
      attackerIndex := advance s.attackerIndex s.currentPlayerOrder.length,
      defenderIndex := advance s.defenderIndex s.currentPlayerOrder.length } := by
  unfold switchRoles at h
  simp only [Option.map_eq_some'] at h
  obtain ⟨_, _, h2⟩ := h
  exact (Prod.mk.inj h2).1.symm

theorem handleAttack_inv (s s1 : State) (ws : Ws) (card : Card) (evs : List Event)
    (h : handleAttack s ws card = some (s1, evs)) :
    s1 = s ∨ ∃ player kept, mapGet s.clients ws = some player ∧
      handHas player.hand card = some true ∧ filterOut player.hand card = some kept ∧
      s1 = { s with
        tableCards := s.tableCards ++ [(ws, card)],
        clients := mapSet s.clients ws { hand := kept },
        attackerIndex := advance s.attackerIndex s.currentPlayerOrder.length,
        defenderIndex := advance s.defenderIndex s.currentPlayerOrder.length } := by
  unfold handleAttack at h
  split at h
  · exact absurd h (by simp)
  · rename_i player hp
    split at h
    · exact absurd h (by simp)
    · left
      exact (Prod.mk.inj (Option.some.inj h)).1.symm
    · rename_i hh
      split at h
      · exact absurd h (by simp)
      · rename_i s2 hr
        split at h
        · exact absurd h (by simp)
        · rename_i s3 evs3 hsw
          right
          unfold removeCardFromHand at hr
          simp only [Option.map_eq_some'] at hr
          obtain ⟨kept, hk, hs2⟩ := hr
          refine ⟨player, kept, hp, hh, hk, ?_⟩
          have h3 := switchRoles_state _ _ _ hsw
          have : s1 = s3 := (Prod.mk.inj (Option.some.inj h)).1.symm
          rw [this, h3, ← hs2]

theorem handleDefend_inv (s s1 : State) (ws : Ws) (card : Card) (evs : List Event)
    (h : handleDefend s ws card = some (s1, evs)) :
    s1 = s ∨ ∃ player kept, mapGet s.clients ws = some player ∧
      handHas player.hand card = some true ∧ filterOut player.hand card = some kept ∧
      s1 = { s with
        tableCards := s.tableCards ++ [(ws, card)],
        clients := mapSet s.clients ws { hand := kept },
        playersScores := tallyRoundScores (mapSet s.clients ws { hand := kept }) s.playersScores,
        gameInProgress := false } := by
  unfold handleDefend at h
  split at h
  · exact absurd h (by simp)
  · rename_i player hp
    split at h
    · exact absurd h (by simp)
    · left
      exact (Prod.mk.inj (Option.some.inj h)).1.symm
    · rename_i hh
      split at h
      · rename_i first trumpCard hf ht
        split_ifs at h with hb
        · split at h
          · exact absurd h (by simp)
          · rename_i s2 hr
            right
            unfold removeCardFromHand at hr
            simp only [Option.map_eq_some'] at hr
            obtain ⟨kept, hk, hs2⟩ := hr
            refine ⟨player, kept, hp, hh, hk, ?_⟩
            have : s1 = (endRound s2).1 := (Prod.mk.inj (Option.some.inj h)).1.symm
            rw [this, ← hs2]
            rfl
        · left
          exact (Prod.mk.inj (Option.some.inj h)).1.symm
      · exact absurd h (by simp)

/-! ### Moving a card from a hand to the table -/

theorem filterOut_eq (hand kept : List (Option Card)) (card : Card)
    (h : filterOut hand card = some kept) :
    kept = hand.filter (fun e => decide (e ≠ some card)) ∧ none ∉ hand := by
  induction hand generalizing kept with
  | nil =>
    simp only [filterOut, Option.some.injEq] at h
    simp [← h]
  | cons e rest ih =>
    cases e with
    | none => simp [filterOut] at h
    | some c =>
      simp only [filterOut, Option.map_eq_some'] at h
      obtain ⟨kept0, hk0, hkept⟩ := h
      obtain ⟨ih1, ih2⟩ := ih kept0 hk0
      constructor
      · by_cases hc : c = card
        · rw [if_neg (not_not.mpr ((card_eq_iff c card).mpr hc))] at hkept
          simp [hc, ← hkept, ih1]
        · rw [if_pos (fun hh => hc ((card_eq_iff c card).mp hh))] at hkept
          simp [hc, ← hkept, ih1]
      · simpa using ih2

theorem handHas_true_mem (hand : List (Option Card)) (card : Card)
    (h : handHas hand card = some true) : some card ∈ hand := by
  induction hand with
  | nil => simp [handHas] at h
  | cons e rest ih =>
    cases e with
    | none => simp [handHas] at h
    | some c =>
      simp only [handHas, card_eq_iff] at h
      by_cases hc : c = card
      · simp [hc]
      · simp only [hc, if_false] at h
        exact List.mem_cons_of_mem _ (ih h)

theorem mapSet_split {β : Type} (l : List (Ws × β)) (ws : Ws) (p q : β)
    (h : mapGet l ws = some p) :
    ∃ pre post, l = pre ++ (ws, p) :: post ∧ mapSet l ws q = pre ++ (ws, q) :: post := by
  induction l with
  | nil => simp [mapGet] at h
  | cons e rest ih =>
    obtain ⟨k, v⟩ := e
    by_cases hk : k = ws
    · simp only [mapGet, hk, if_true, Option.some.injEq] at h
      refine ⟨[], rest, ?_, ?_⟩
      · simp [hk, h]
      · simp [mapSet, hk]
    · simp only [mapGet, hk, if_false] at h
      obtain ⟨pre, post, h1, h2⟩ := ih h
      refine ⟨(k, v) :: pre, post, ?_, ?_⟩
      · simp [h1]
      · simp [mapSet, hk, h2]

theorem perm_cons_filter_ne (hand : List (Option Card)) (x : Option Card)
    (hn : hand.Nodup) (hx : x ∈ hand) :
    hand.Perm (x :: hand.filter (fun e => decide (e ≠ x))) := by
  induction hand with
  | nil => simp at hx
  | cons y t ih =>
    obtain ⟨hy, ht⟩ := List.nodup_cons.mp hn
    by_cases hyx : y = x
    · subst hyx
      have hself : t.filter (fun e => decide (e ≠ y)) = t := by
        rw [List.filter_eq_self]
        intro e he
        have hne : e ≠ y := fun heq => hy (heq ▸ he)
        simpa using hne
      have h1 : (y :: t).filter (fun e => decide (e ≠ y)) = t := by
        rw [List.filter_cons_of_neg (by simp), hself]
      rw [h1]
    · have hxt : x ∈ t := by
        rcases List.mem_cons.mp hx with h | h
        · exact absurd h.symm hyx
        · exact h
      have h1 : (y :: t).filter (fun e => decide (e ≠ x))
          = y :: t.filter (fun e => decide (e ≠ x)) := by
        simp [hyx]
      rw [h1]
      exact ((ih ht hxt).cons y).trans (List.Perm.swap x y _)

theorem move_nodup (clients : List (Ws × Player)) (table : List (Ws × Card)) (ws : Ws)
    (player : Player) (card : Card) (kept : List (Option Card))
    (hp : mapGet clients ws = some player) (hh : handHas player.hand card = some true)
    (hk : filterOut player.hand card = some kept)
    (hn : (clients.flatMap (fun entry => entry.2.hand)
      ++ table.map (fun tc => some tc.2)).Nodup) :
    ((mapSet clients ws { hand := kept }).flatMap (fun entry => entry.2.hand)
      ++ (table ++ [(ws, card)]).map (fun tc => some tc.2)).Nodup := by
  obtain ⟨pre, post, h1, h2⟩ := mapSet_split clients ws player { hand := kept } hp
  obtain ⟨hkept, _⟩ := filterOut_eq _ _ _ hk
  have hmem := handHas_true_mem _ _ hh
  rw [h2]
  rw [h1] at hn
  simp only [List.flatMap_append, List.flatMap_cons, List.map_append,
    List.map_cons, List.map_nil] at hn ⊢
  have hhand : player.hand.Nodup :=
    (List.nodup_append.mp (List.nodup_append.mp (List.nodup_append.mp hn).1).2.1).1
  have hperm := perm_cons_filter_ne player.hand (some card) hhand hmem
  rw [← hkept] at hperm
  refine (List.Perm.nodup_iff ?_).mp hn
  refine ((((hperm.append_right _).append_left _).append_right _).trans ?_)
  rw [← List.append_assoc _ _ [some card]]
  refine List.Perm.trans ?_ (List.perm_append_singleton _ _).symm
  simp only [List.cons_append, List.append_assoc]
  exact List.perm_middle

/-! ### Invariants of play -/

theorem dealAll_keys (s : State) (clients : List (Ws × Player)) (deck : List Card) :
    (dealAll s clients deck).1.map (fun entry => entry.1)
      = clients.map (fun entry => entry.1) := by
  induction clients generalizing deck with
  | nil => simp [dealAll]
  | cons e rest ih => simp [dealAll, ih]

theorem startGame_turn (rand : Nat → Nat) (s s1 : State) (evs : List Event)
    (h : startGame rand s = some (s1, evs)) :
    s1.currentPlayerOrder.length = s.clients.length ∧
    s1.attackerIndex = some 0 ∧ s1.defenderIndex = some 1 := by
  unfold startGame at h
  simp only [Option.map_eq_some'] at h
  obtain ⟨_, _, h2⟩ := h
  have h3 := (Prod.mk.inj h2).1
  subst h3
  refine ⟨?_, rfl, rfl⟩
  simp only [List.length_map]
  have := congrArg List.length (dealAll_keys s s.clients (createDeck rand))
  simpa using this

theorem startGame_nodup (rand : Nat → Nat) (s s1 : State) (evs : List Event)
    (hn : s.clients.length ≤ maxPlayers) (h : startGame rand s = some (s1, evs)) :
    (allCards s1).Nodup := by
  obtain ⟨s2, evs2, h2, hhands, _, htable, _⟩ := startGame_spec rand s hn
  rw [h] at h2
  obtain ⟨rfl, _⟩ := Prod.mk.inj (Option.some.inj h2)
  unfold allCards
  rw [hhands, htable]
  simp only [List.map_nil, List.append_nil]
  refine List.Nodup.map (Option.some_injective _) ?_
  exact List.Nodup.sublist (List.take_sublist _ _)
    (List.nodup_reverse.mpr (createDeck_nodup rand))

theorem mapDelete_hands_sublist (l : List (Ws × Player)) (ws : Ws) :
    ((mapDelete l ws).flatMap (fun entry => entry.2.hand)).Sublist
      (l.flatMap (fun entry => entry.2.hand)) := by
  induction l with
  | nil => exact List.Sublist.refl _
  | cons e rest ih =>
    obtain ⟨k, v⟩ := e
    by_cases hk : k = ws
    · simp only [mapDelete, hk, if_true, List.flatMap_cons]
      exact List.sublist_append_right _ _
    · simp only [mapDelete, hk, if_false, List.flatMap_cons]
      exact List.Sublist.append (List.Sublist.refl _) ih

theorem step_play_nodup (rand : Nat → Nat) (s s1 : State) (input : Input) (evs : List Event)
    (ha : input.isPlayOrLeave = true) (h : step rand s input = some (s1, evs))
    (hn : (allCards s).Nodup) : (allCards s1).Nodup := by
  cases input with
  | connection ws => simp [Input.isPlayOrLeave, Input.isPlay] at ha
  | close ws =>
    simp only [step, Option.some.injEq, Prod.mk.injEq] at h
    obtain ⟨rfl, _⟩ := h
    exact List.Nodup.sublist
      (List.Sublist.append (mapDelete_hands_sublist s.clients ws) (List.Sublist.refl _)) hn
  | message ws msg =>
    cases msg with
    | start_game => simp [Input.isPlayOrLeave, Input.isPlay] at ha
    | attack card =>
      rcases handleAttack_inv s s1 ws card evs h with rfl | ⟨player, kept, hp, hh, hk, rfl⟩
      · exact hn
      · exact move_nodup s.clients s.tableCards ws player card kept hp hh hk hn
    | defend card =>
      rcases handleDefend_inv s s1 ws card evs h with rfl | ⟨player, kept, hp, hh, hk, rfl⟩
      · exact hn
      · exact move_nodup s.clients s.tableCards ws player card kept hp hh hk hn
    | pass =>
      have := switchRoles_state s s1 evs h
      subst this
      exact hn

theorem reachable_nodup (s s1 : State)
    (hreach : Reachable (fun input => input.isPlayOrLeave = true) s s1)
    (hn : (allCards s).Nodup) : (allCards s1).Nodup := by
  induction hreach with
  | refl => exact hn
  | tail rand input evs _ ha hstep ih => exact step_play_nodup rand _ _ input evs ha hstep ih

theorem reachable_mono {p q : Input → Prop} (hpq : ∀ input, p input → q input)
    (s t : State) (h : Reachable p s t) : Reachable q s t := by
  induction h with
  | refl => exact Reachable.refl _
  | tail rand input evs _ ha hstep ih => exact Reachable.tail rand input evs ih (hpq _ ha) hstep

theorem isPlay_isPlayOrLeave (input : Input) (h : input.isPlay = true) :
    input.isPlayOrLeave = true := by
  cases input <;> simp_all [Input.isPlayOrLeave, Input.isPlay]

/-- C4: in every state reached from `startGame` (at most `maxPlayers` seated,
  draws in range) by `attack`, `defend` and `pass` messages, the cards of all
  hands followed by the cards on the table form a list without repetition: no
  card is in two hands, twice in one hand, or in a hand and on the table. -/
theorem no_duplicate_cards (rand : Nat → Nat) (s0 s1 s : State) (evs : List Event)
    (_hr : ValidDraws rand) (hn : s0.clients.length ≤ maxPlayers)
    (hs : startGame rand s0 = some (s1, evs))
    (hreach : Reachable (fun input => input.isPlay = true) s1 s) :
    (allCards s).Nodup :=
  reachable_nodup s1 s (reachable_mono isPlay_isPlayOrLeave s1 s hreach)
    (startGame_nodup rand s0 s1 evs hn hs)

theorem advance_valid (a d n : Nat) (ha : a < n) (hd : d < n) (hne : a ≠ d) :
    ∃ a1 d1, advance (some a) n = some a1 ∧ advance (some d) n = some d1 ∧
      a1 < n ∧ d1 < n ∧ a1 ≠ d1 := by
  have hn : n ≠ 0 := by omega
  refine ⟨(a + 1) % n, (d + 1) % n, by simp [advance, hn], by simp [advance, hn],
    Nat.mod_lt _ (by omega), Nat.mod_lt _ (by omega), ?_⟩
  intro h
  rcases Nat.lt_or_ge (a + 1) n with h1 | h1 <;> rcases Nat.lt_or_ge (d + 1) n with h2 | h2
  · rw [Nat.mod_eq_of_lt h1, Nat.mod_eq_of_lt h2] at h; omega
  · have : d + 1 = n := by omega
    rw [Nat.mod_eq_of_lt h1, this, Nat.mod_self] at h; omega
  · have : a + 1 = n := by omega
    rw [Nat.mod_eq_of_lt h2, this, Nat.mod_self] at h; omega
  · omega

theorem step_indices (rand : Nat → Nat) (s s1 : State) (input : Input) (evs : List Event)
    (ha : input.isPlayOrLeave = true) (h : step rand s input = some (s1, evs))
    (hv : IndicesValid s) : IndicesValid s1 := by
  obtain ⟨a, d, h1, h2, h3, h4, h5⟩ := hv
  obtain ⟨a1, d1, g1, g2, g3, g4, g5⟩ := advance_valid a d _ h3 h4 h5
  cases input with
  | connection ws => simp [Input.isPlayOrLeave, Input.isPlay] at ha
  | close ws =>
    simp only [step, Option.some.injEq, Prod.mk.injEq] at h
    obtain ⟨rfl, _⟩ := h
    exact ⟨a, d, h1, h2, h3, h4, h5⟩
  | message ws msg =>
    cases msg with
    | start_game => simp [Input.isPlayOrLeave, Input.isPlay] at ha
    | attack card =>
      rcases handleAttack_inv s s1 ws card evs h with rfl | ⟨player, kept, hp, hh, hk, rfl⟩
      · exact ⟨a, d, h1, h2, h3, h4, h5⟩
      · exact ⟨a1, d1, by simp only [h1, g1], by simp only [h2, g2], g3, g4, g5⟩
    | defend card =>
      rcases handleDefend_inv s s1 ws card evs h with rfl | ⟨player, kept, hp, hh, hk, rfl⟩
      · exact ⟨a, d, h1, h2, h3, h4, h5⟩
      · exact ⟨a, d, h1, h2, h3, h4, h5⟩
    | pass =>
      have := switchRoles_state s s1 evs h
      subst this
      exact ⟨a1, d1, by simp only [h1, g1], by simp only [h2, g2], g3, g4, g5⟩

/-- C6: in every state reached from `startGame` with at least two seated
  players by `attack`, `defend` and `pass` messages and closes of sockets,
  `attackerIndex` and `defenderIndex` are positions of `currentPlayerOrder`
  and differ. -/
theorem indices_valid_distinct (rand : Nat → Nat) (s0 s1 s : State) (evs : List Event)
    (_hr : ValidDraws rand) (h2 : 2 ≤ s0.clients.length)
    (hs : startGame rand s0 = some (s1, evs))
    (hreach : Reachable (fun input => input.isPlayOrLeave = true) s1 s) :
    ∃ a d, s.attackerIndex = some a ∧ s.defenderIndex = some d ∧
      a < s.currentPlayerOrder.length ∧ d < s.currentPlayerOrder.length ∧ a ≠ d := by
  have hbase : IndicesValid s1 := by
    obtain ⟨hlen, ha, hd⟩ := startGame_turn rand s0 s1 evs hs
    exact ⟨0, 1, ha, hd, by omega, by omega, by omega⟩
  clear hs
  induction hreach with
  | refl => exact hbase
  | tail rand1 input evs1 _ ha hstep ih => exact step_indices rand1 _ _ input evs1 ha hstep ih

/-! ### Rejected moves -/

theorem handHas_of_no_none (hand : List (Option Card)) (card : Card)
    (h : none ∉ hand) : handHas hand card = some (decide (some card ∈ hand)) := by
  induction hand with
  | nil => simp [handHas]
  | cons e rest ih =>
    cases e with
    | none => simp at h
    | some c =>
      have hrest : none ∉ rest := fun hm => h (List.mem_cons_of_mem _ hm)
      by_cases hc : c = card
      · simp [handHas, hc]
      · have hc2 : ¬ (c.suit = card.suit ∧ c.rank = card.rank) :=
          fun hh => hc ((card_eq_iff c card).mp hh)
        have hc3 : ¬ card = c := fun hh => hc hh.symm
        simp only [handHas, if_neg hc2, ih hrest]
        simp [hc3]

theorem filterOut_of_no_none (hand : List (Option Card)) (card : Card)
    (h : none ∉ hand) :
    filterOut hand card = some (hand.filter (fun e => decide (e ≠ some card))) := by
  induction hand with
  | nil => simp [filterOut]
  | cons e rest ih =>
    cases e with
    | none => simp at h
    | some c =>
      have hrest : none ∉ rest := fun hm => h (List.mem_cons_of_mem _ hm)
      by_cases hc : c = card
      · have hc2 : (c.suit = card.suit ∧ c.rank = card.rank) := (card_eq_iff c card).mpr hc
        simp only [filterOut, ih hrest, Option.map_some', if_neg (not_not.mpr hc2)]
        simp [hc]
      · have hc2 : ¬ (c.suit = card.suit ∧ c.rank = card.rank) :=
          fun hh => hc ((card_eq_iff c card).mp hh)
        simp only [filterOut, ih hrest, Option.map_some', if_pos hc2]
        simp [hc]

/-- C8: when the hand of the (seated, open) sender holds only cards and none
  of them has the suit and rank of `card`, `handleAttack` returns the state
  unchanged (hands, table cards, scores, indices) and emits one event: the
  error message, addressed to the sender. -/
theorem handleAttack_rejects_missing_card (s : State) (ws : Ws) (card : Card)
    (player : Player) (hp : mapGet s.clients ws = some player)
    (hnone : none ∉ player.hand) (hnot : some card ∉ player.hand)
    (hopen : ws ∈ s.openSockets) :
    handleAttack s ws card = some (s, [(ws, Msg.error "У вас нет такой карты")]) := by
  have hh : handHas player.hand card = some false := by
    rw [handHas_of_no_none _ _ hnone]
    simp [hnot]
  unfold handleAttack
  simp only [hp, hh, send, hopen, if_true]

/-- Rejection by `handleDefend` where a trump card is set: with a card on the
  table, when the (seated, open) sender, whose hand holds only cards, does not
  hold `card`, or holds it but `canBeat` is false against the card of
  `tableCards[0]` under the suit of the trump card, `handleDefend` returns the
  state unchanged (table cards, hands, scores, indices, `gameInProgress`) and
  emits one event: an error message to the sender. -/
theorem handleDefend_rejects (s : State) (ws : Ws) (card : Card) (player : Player)
    (first : Ws × Card) (rest : List (Ws × Card))
    (hp : mapGet s.clients ws = some player) (hnone : none ∉ player.hand)
    (hopen : ws ∈ s.openSockets) (htable : s.tableCards = first :: rest)
    (hbad : some card ∉ player.hand ∨
      ∃ trump, s.trumpCard = some trump ∧ canBeat card first.2 trump.suit = false) :
    ∃ message, handleDefend s ws card = some (s, [(ws, Msg.error message)]) := by
  have hh := handHas_of_no_none player.hand card hnone
  by_cases hmem : some card ∈ player.hand
  · rcases hbad with hnot | ⟨trump, htrump, hbeat⟩
    · exact absurd hmem hnot
    · refine ⟨"Эту карту побить нельзя", ?_⟩
      unfold handleDefend
      simp only [hp, hh, hmem, decide_True, htable, List.head?_cons, htrump, hbeat,
        send, hopen, if_true]
      simp
  · refine ⟨"У вас нет такой карты", ?_⟩
    unfold handleDefend
    simp only [hp, hh, hmem, decide_False, send, hopen, if_true]

/-! ### Accepted attacks -/

theorem advance_some (a n : Nat) (h : a < n) : advance (some a) n = some ((a + 1) % n) := by
  have hn : n ≠ 0 := by omega
  simp [advance, hn]

theorem switchRoles_some (s : State) (a d : Nat) (ha : s.attackerIndex = some a)
    (hd : s.defenderIndex = some d) (han : a < s.currentPlayerOrder.length)
    (hdn : d < s.currentPlayerOrder.length) :
    ∃ evs, switchRoles s = some ({ s with
      attackerIndex := some ((a + 1) % s.currentPlayerOrder.length),
      defenderIndex := some ((d + 1) % s.currentPlayerOrder.length) }, evs) := by
  unfold switchRoles
  simp only [ha, hd, advance_some a _ han, advance_some d _ hdn]
  obtain ⟨evs, hevs⟩ := nextTurn_some { s with
      attackerIndex := some ((a + 1) % s.currentPlayerOrder.length),
      defenderIndex := some ((d + 1) % s.currentPlayerOrder.length) }
    ((a + 1) % s.currentPlayerOrder.length) ((d + 1) % s.currentPlayerOrder.length) rfl rfl
    (fun _ => ⟨Nat.mod_lt _ (by omega), Nat.mod_lt _ (by omega)⟩)
  exact ⟨evs, by rw [hevs]; rfl⟩

theorem handleAttack_accepts (s : State) (ws : Ws) (card : Card) (player : Player)
    (a d : Nat) (hp : mapGet s.clients ws = some player) (hnone : none ∉ player.hand)
    (hmem : some card ∈ player.hand) (ha : s.attackerIndex = some a)
    (hd : s.defenderIndex = some d) (han : a < s.currentPlayerOrder.length)
    (hdn : d < s.currentPlayerOrder.length) :
    ∃ evs, handleAttack s ws card = some ({ s with
      tableCards := s.tableCards ++ [(ws, card)],
      clients := mapSet s.clients ws
        { hand := player.hand.filter (fun e => decide (e ≠ some card)) },
      attackerIndex := some ((a + 1) % s.currentPlayerOrder.length),
      defenderIndex := some ((d + 1) % s.currentPlayerOrder.length) }, evs) := by
  obtain ⟨evs, hevs⟩ := switchRoles_some { s with
      tableCards := s.tableCards ++ [(ws, card)],
      clients := mapSet s.clients ws
        { hand := player.hand.filter (fun e => decide (e ≠ some card)) } } a d ha hd han hdn
  unfold handleAttack
  simp only [hp, handHas_of_no_none _ _ hnone, hmem, decide_True, removeCardFromHand,
    filterOut_of_no_none _ _ hnone, Option.map_some', hevs]
  exact ⟨_, rfl⟩

theorem mapGet_mapSet {β : Type} (l : List (Ws × β)) (ws w : Ws) (v : β) :
    mapGet (mapSet l ws v) w = if w = ws then some v else mapGet l w := by
  induction l with
  | nil =>
    by_cases h : w = ws
    · simp [mapSet, mapGet, h]
    · have h2 : ¬ ws = w := fun hh => h hh.symm
      simp [mapSet, mapGet, h, h2]
  | cons e rest ih =>
    obtain ⟨k, v0⟩ := e
    by_cases hk : k = ws
    · by_cases h : w = ws
      · simp [mapSet, mapGet, hk, h]
      · have h2 : ¬ ws = w := fun hh => h hh.symm
        simp [mapSet, mapGet, hk, h, h2]
    · by_cases h : w = ws
      · subst h
        simp [mapSet, mapGet, hk, ih]
      · by_cases hkw : k = w
        · simp [mapSet, mapGet, hk, h, hkw]
        · simp [mapSet, mapGet, hk, h, hkw, ih]

theorem filter_ne_eq_erase (cards : List Card) (card : Card) (h : cards.count card ≤ 1) :
    (cards.map some).filter (fun e => decide (e ≠ some card)) = (cards.erase card).map some := by
  induction cards with
  | nil => simp
  | cons c rest ih =>
    by_cases hc : c = card
    · subst hc
      have h0 : rest.count c = 0 := by simpa using h
      have hnot : c ∉ rest := List.count_eq_zero.mp h0
      have hself : (rest.map some).filter (fun e => decide (e ≠ some c)) = rest.map some := by
        rw [List.filter_eq_self]
        intro e he
        obtain ⟨x, hx, rfl⟩ := List.mem_map.mp he
        have : x ≠ c := fun hh => hnot (hh ▸ hx)
        simpa using this
      have h1 : ((c :: rest).map some).filter (fun e => decide (e ≠ some c))
          = rest.map some := by
        rw [List.map_cons, List.filter_cons_of_neg (by simp), hself]
      rw [h1, List.erase_cons_head]
    · have h1 : rest.count card ≤ 1 := by
        rw [List.count_cons_of_ne (fun hh => hc hh.symm)] at h
        exact h
      have h2 : ((c :: rest).map some).filter (fun e => decide (e ≠ some card))
          = some c :: (rest.map some).filter (fun e => decide (e ≠ some card)) := by
        rw [List.map_cons, List.filter_cons_of_pos (by simpa using hc)]
      rw [h2, ih h1, List.erase_cons_tail (by simpa using hc), List.map_cons]

/-- C9: when the (seated) sender holds `card` exactly once, in a hand `cards`
  of cards only, and the turn indices are positions of the turn order,
  `handleAttack` returns normally; in the new state the table cards are the old
  ones followed by the entry `(ws, card)`, the hand of the sender is `cards`
  with that card erased (one card fewer, the others in order), the hand of
  every other socket is as before, and each index has moved one position on,
  modulo the length of the turn order. -/
theorem handleAttack_moves_card (s : State) (ws : Ws) (card : Card) (player : Player)
    (cards : List Card) (a d : Nat) (hp : mapGet s.clients ws = some player)
    (hhand : player.hand = cards.map some) (hcount : cards.count card = 1)
    (ha : s.attackerIndex = some a) (hd : s.defenderIndex = some d)
    (han : a < s.currentPlayerOrder.length) (hdn : d < s.currentPlayerOrder.length) :
    ∃ s1 evs, handleAttack s ws card = some (s1, evs) ∧
      s1.tableCards = s.tableCards ++ [(ws, card)] ∧
      mapGet s1.clients ws = some { hand := (cards.erase card).map some } ∧
      (cards.erase card).length + 1 = cards.length ∧
      (∀ w, w ≠ ws → mapGet s1.clients w = mapGet s.clients w) ∧
      s1.attackerIndex = some ((a + 1) % s.currentPlayerOrder.length) ∧
      s1.defenderIndex = some ((d + 1) % s.currentPlayerOrder.length) ∧
      s1.currentPlayerOrder = s.currentPlayerOrder ∧
      s1.playersScores = s.playersScores := by
  have hnone : none ∉ player.hand := by rw [hhand]; simp
  have hin : card ∈ cards := List.count_pos_iff.mp (by omega)
  have hmem : some card ∈ player.hand := by
    rw [hhand]; exact List.mem_map.mpr ⟨card, hin, rfl⟩
  obtain ⟨evs, hevs⟩ := handleAttack_accepts s ws card player a d hp hnone hmem ha hd han hdn
  refine ⟨_, evs, hevs, rfl, ?_, ?_, ?_, rfl, rfl, rfl, rfl⟩
  · simp only [mapGet_mapSet, if_true, hhand, filter_ne_eq_erase cards card (by omega)]
  · rw [List.length_erase_of_mem hin]
    have : 0 < cards.length := List.length_pos_of_mem hin
    omega
  · intro w hw
    simp only [mapGet_mapSet, if_neg hw]

/-! ### Turn rotation -/

theorem handleAttack_inv_accepted (s s1 : State) (ws : Ws) (card : Card) (evs : List Event)
    (hacc : attackAccepted s ws card = true)
    (h : handleAttack s ws card = some (s1, evs)) :
    ∃ clients, s1 = { s with
        tableCards := s.tableCards ++ [(ws, card)],
        clients := clients,
        attackerIndex := advance s.attackerIndex s.currentPlayerOrder.length,
        defenderIndex := advance s.defenderIndex s.currentPlayerOrder.length } := by
  unfold attackAccepted at hacc
  split at hacc
  · exact absurd hacc (by simp)
  · rename_i player hp
    have hh : handHas player.hand card = some true := by simpa using hacc
    unfold handleAttack at h
    simp only [hp, hh] at h
    split at h
    · exact absurd h (by simp)
    · rename_i s2 hr
      split at h
      · exact absurd h (by simp)
      · rename_i s3 evs3 hsw
        unfold removeCardFromHand at hr
        simp only [Option.map_eq_some'] at hr
        obtain ⟨kept, _, hs2⟩ := hr
        have h3 := switchRoles_state _ _ _ hsw
        have : s1 = s3 := (Prod.mk.inj (Option.some.inj h)).1.symm
        exact ⟨_, by rw [this, h3, ← hs2]⟩

/-- C5: from a state whose turn order has length `n ≥ 2` and whose indices
  `a0`, `d0` are positions of it, after `N` accepted attacks in a row, with no
  defence between them, `attackerIndex` is `(a0 + N) mod n` and
  `defenderIndex` is `(d0 + N) mod n`. -/
theorem attacks_rotate_indices (attacks : List (Ws × Card)) (s s1 : State) (a0 d0 : Nat)
    (hn : 2 ≤ s.currentPlayerOrder.length)
    (ha : s.attackerIndex = some a0) (hd : s.defenderIndex = some d0)
    (ha0 : a0 < s.currentPlayerOrder.length) (hd0 : d0 < s.currentPlayerOrder.length)
    (hrun : runAttacks s attacks = some s1) :
    s1.attackerIndex = some ((a0 + attacks.length) % s.currentPlayerOrder.length) ∧
    s1.defenderIndex = some ((d0 + attacks.length) % s.currentPlayerOrder.length) := by
  induction attacks generalizing s a0 d0 with
  | nil =>
    simp only [runAttacks, Option.some.injEq] at hrun
    subst hrun
    simp [ha, hd, Nat.mod_eq_of_lt ha0, Nat.mod_eq_of_lt hd0]
  | cons attack rest ih =>
    obtain ⟨ws, card⟩ := attack
    simp only [runAttacks] at hrun
    split_ifs at hrun with hacc
    split at hrun
    · exact absurd hrun (by simp)
    · rename_i s2 evs hatt
      obtain ⟨clients, hs2⟩ := handleAttack_inv_accepted s s2 ws card evs hacc hatt
      have hlen : s2.currentPlayerOrder.length = s.currentPlayerOrder.length := by rw [hs2]
      have ha2 : s2.attackerIndex = some ((a0 + 1) % s.currentPlayerOrder.length) := by
        rw [hs2]; simp only [ha, advance_some a0 _ ha0]
      have hd2 : s2.defenderIndex = some ((d0 + 1) % s.currentPlayerOrder.length) := by
        rw [hs2]; simp only [hd, advance_some d0 _ hd0]
      have hpos : 0 < s.currentPlayerOrder.length := by omega
      have := ih s2 _ _ (by omega) (hlen ▸ ha2) (hlen ▸ hd2)
        (by rw [hlen]; exact Nat.mod_lt _ hpos) (by rw [hlen]; exact Nat.mod_lt _ hpos) hrun
      rw [hlen] at this
      simp only [List.length_cons]
      rw [Nat.mod_add_mod, Nat.mod_add_mod] at this
      rw [show a0 + (rest.length + 1) = a0 + 1 + rest.length by omega,
        show d0 + (rest.length + 1) = d0 + 1 + rest.length by omega]
      exact this

/-! ### A sample game -/

set_option maxRecDepth 100000 in
theorem startGame_sample :
    startGame (fun i => i) (lobby 2) = some (sampleGame, sampleGameEvents) := by
  decide

set_option maxRecDepth 100000 in
theorem handleAttack_sample :
    handleAttack sampleGame 0 ⟨"♣", "Т"⟩ = some (sampleAfterAttack, sampleAttackEvents) := by
  decide

set_option maxRecDepth 100000 in
theorem runAttacks_sample :
    runAttacks sampleGame [(0, ⟨"♣", "Т"⟩), (1, ⟨"♣", "8"⟩)] = some sampleAfterTwoAttacks := by
  decide

theorem validDraws_id : ValidDraws (fun i => i) := fun i => Nat.le_refl i

theorem reachable_sample (allowed : Input → Prop)
    (h : allowed (Input.message 0 (Intent.attack ⟨"♣", "Т"⟩))) :
    Reachable allowed sampleGame sampleAfterAttack :=
  Reachable.tail (fun i => i) (Input.message 0 (Intent.attack ⟨"♣", "Т"⟩)) sampleAttackEvents
    (Reachable.refl _) h handleAttack_sample

/-- Witness of C4: the table of two after the first attack. -/
theorem no_duplicate_cards_witness : (allCards sampleAfterAttack).Nodup :=
  no_duplicate_cards (fun i => i) (lobby 2) sampleGame sampleAfterAttack sampleGameEvents
    validDraws_id (by decide) startGame_sample (reachable_sample _ rfl)

/-- Witness of C6: the table of two after the first attack. -/
theorem indices_valid_distinct_witness :
    ∃ a d, sampleAfterAttack.attackerIndex = some a ∧
      sampleAfterAttack.defenderIndex = some d ∧
      a < sampleAfterAttack.currentPlayerOrder.length ∧
      d < sampleAfterAttack.currentPlayerOrder.length ∧ a ≠ d :=
  indices_valid_distinct (fun i => i) (lobby 2) sampleGame sampleAfterAttack sampleGameEvents
    validDraws_id (by decide) startGame_sample (reachable_sample _ rfl)

/-- Witness of C5: two attacks in a row at the table of two. -/
theorem attacks_rotate_indices_witness :
    sampleAfterTwoAttacks.attackerIndex
      = some ((0 + [((0 : Ws), (⟨"♣", "Т"⟩ : Card)), (1, ⟨"♣", "8"⟩)].length)
          % sampleGame.currentPlayerOrder.length) ∧
    sampleAfterTwoAttacks.defenderIndex
      = some ((1 + [((0 : Ws), (⟨"♣", "Т"⟩ : Card)), (1, ⟨"♣", "8"⟩)].length)
          % sampleGame.currentPlayerOrder.length) :=
  attacks_rotate_indices [(0, ⟨"♣", "Т"⟩), (1, ⟨"♣", "8"⟩)] sampleGame sampleAfterTwoAttacks 0 1
    (by decide) rfl rfl (by decide) (by decide) runAttacks_sample

/-! ### The trump card and the role of the sender -/

theorem startGame_trump_of_le_five (rand : Nat → Nat) (s : State)
    (h : s.clients.length ≤ 5) :
    ∃ s1 evs trump, startGame rand s = some (s1, evs) ∧ s1.trumpCard = some trump ∧
      trump ∈ createDeck rand ∧
      some trump ∉ s1.clients.flatMap (fun entry => entry.2.hand) ∧
      (∀ entry ∈ s1.clients, entry.2.hand.length = 6) := by
  obtain ⟨s1, evs, hs, hhands, htrump, _, _, _, _, _, hlen⟩ :=
    startGame_spec rand s (by omega)
  have hr : (createDeck rand).reverse.Nodup := List.nodup_reverse.mpr (createDeck_nodup rand)
  have hsplit := List.take_append_drop (6 * s.clients.length) (createDeck rand).reverse
  cases hdrop : (createDeck rand).reverse.drop (6 * s.clients.length) with
  | nil =>
    have := congrArg List.length hdrop
    simp [createDeck_length] at this
    omega
  | cons trump rest =>
    rw [hdrop] at htrump hsplit
    refine ⟨s1, evs, trump, hs, by simpa using htrump, ?_, ?_, hlen⟩
    · have : trump ∈ (createDeck rand).reverse := by
        rw [← hsplit]; simp
      simpa using this
    · rw [hhands]
      intro hmem
      obtain ⟨x, hx, hxe⟩ := List.mem_map.mp hmem
      have hxt : x = trump := Option.some.inj hxe
      subst hxt
      rw [← hsplit] at hr
      exact (List.nodup_append.mp hr).2.2 hx (List.mem_cons_self _ _)

/-- C3 fails at six seated players: `startGame` deals all 36 cards, six to
  each hand, and `deck.pop()` on the emptied deck leaves `trumpCard` undefined,
  whatever the shuffle. -/
theorem startGame_six_players_no_trump (rand : Nat → Nat) (s : State)
    (h : s.clients.length = 6) :
    ∃ s1 evs, startGame rand s = some (s1, evs) ∧
      (∀ entry ∈ s1.clients, entry.2.hand.length = 6) ∧ s1.trumpCard = none := by
  obtain ⟨s1, evs, hs, _, htrump, _, _, _, _, _, hlen⟩ := startGame_spec rand s (by omega)
  refine ⟨s1, evs, hs, hlen, ?_⟩
  rw [htrump, h, List.head?_eq_none_iff, List.drop_eq_nil_iff]
  simp [createDeck_length]

/-- Witness of C3: six sockets in the lobby, the deck left in base order. -/
theorem startGame_six_players_no_trump_witness :
    ∃ s1 evs, startGame (fun i => i) (lobby 6) = some (s1, evs) ∧
      (∀ entry ∈ s1.clients, entry.2.hand.length = 6) ∧ s1.trumpCard = none :=
  startGame_six_players_no_trump (fun i => i) (lobby 6) (by decide)

/-- C7 fails on the code: in `sampleGame` the attacker is socket `0`, yet the
  attack of the seated socket `1` with a card it holds is accepted (the card is
  laid on the table, both indices move), and its `pass` moves both indices. -/
theorem non_attacker_intents_accepted :
    orderAt sampleGame.currentPlayerOrder sampleGame.attackerIndex = some 0 ∧
    (mapGet sampleGame.clients 1).isSome = true ∧
    sampleGame.tableCards = [] ∧
    sampleGame.attackerIndex = some 0 ∧ sampleGame.defenderIndex = some 1 ∧
    (onMessage (fun i => i) sampleGame 1 (Intent.attack ⟨"♣", "8"⟩)).map
        (fun r => (r.1.tableCards, r.1.attackerIndex, r.1.defenderIndex))
      = some ([(1, ⟨"♣", "8"⟩)], some 1, some 0) ∧
    (onMessage (fun i => i) sampleGame 1 Intent.pass).map
        (fun r => (r.1.attackerIndex, r.1.defenderIndex))
      = some (some 1, some 0) := by
  decide

/-- C7 as amended: the sender of an `attack` or `pass` message is not compared
  with the current attacker.  For every seated socket `ws` (hand of cards only,
  turn indices positions of the turn order), the attacker or not: its attack
  with a card it does not hold leaves the state unchanged; its attack with a
  card it holds is accepted, the card is appended to the table and both indices
  move one position on; its `pass` moves both indices one position on and
  leaves hands and table cards unchanged. -/
theorem sender_role_not_checked (rand : Nat → Nat) (s : State) (ws : Ws) (player : Player)
    (a d : Nat) (hp : mapGet s.clients ws = some player) (hnone : none ∉ player.hand)
    (ha : s.attackerIndex = some a) (hd : s.defenderIndex = some d)
    (han : a < s.currentPlayerOrder.length) (hdn : d < s.currentPlayerOrder.length) :
    (∀ card, some card ∉ player.hand →
      ∃ evs, onMessage rand s ws (Intent.attack card) = some (s, evs)) ∧
    (∀ card, some card ∈ player.hand →
      ∃ s1 evs, onMessage rand s ws (Intent.attack card) = some (s1, evs) ∧
        s1.tableCards = s.tableCards ++ [(ws, card)] ∧
        s1.attackerIndex = some ((a + 1) % s.currentPlayerOrder.length) ∧
        s1.defenderIndex = some ((d + 1) % s.currentPlayerOrder.length)) ∧
    (∃ s1 evs, onMessage rand s ws Intent.pass = some (s1, evs) ∧
        s1.clients = s.clients ∧ s1.tableCards = s.tableCards ∧
        s1.attackerIndex = some ((a + 1) % s.currentPlayerOrder.length) ∧
        s1.defenderIndex = some ((d + 1) % s.currentPlayerOrder.length)) := by
  refine ⟨?_, ?_, ?_⟩
  · intro card hnot
    have hh : handHas player.hand card = some false := by
      rw [handHas_of_no_none _ _ hnone]; simp [hnot]
    refine ⟨send s ws (Msg.error "У вас нет такой карты"), ?_⟩
    simp only [onMessage, handleAttack, hp, hh]
  · intro card hmem
    obtain ⟨evs, hevs⟩ := handleAttack_accepts s ws card player a d hp hnone hmem ha hd han hdn
    exact ⟨_, evs, hevs, rfl, rfl, rfl⟩
  · obtain ⟨evs, hevs⟩ := switchRoles_some s a d ha hd han hdn
    exact ⟨_, evs, hevs, rfl, rfl, rfl, rfl⟩

/-- Witness of C7 as amended: socket `1`, not the attacker, in `sampleGame`. -/
theorem sender_role_not_checked_witness :
    (∀ card, some card ∉ (⟨sampleHand1.map some⟩ : Player).hand →
      ∃ evs, onMessage (fun i => i) sampleGame 1 (Intent.attack card)
        = some (sampleGame, evs)) ∧
    (∀ card, some card ∈ (⟨sampleHand1.map some⟩ : Player).hand →
      ∃ s1 evs, onMessage (fun i => i) sampleGame 1 (Intent.attack card) = some (s1, evs) ∧
        s1.tableCards = sampleGame.tableCards ++ [(1, card)] ∧
        s1.attackerIndex = some ((0 + 1) % sampleGame.currentPlayerOrder.length) ∧
        s1.defenderIndex = some ((1 + 1) % sampleGame.currentPlayerOrder.length)) ∧
    (∃ s1 evs, onMessage (fun i => i) sampleGame 1 Intent.pass = some (s1, evs) ∧
        s1.clients = sampleGame.clients ∧ s1.tableCards = sampleGame.tableCards ∧
        s1.attackerIndex = some ((0 + 1) % sampleGame.currentPlayerOrder.length) ∧
        s1.defenderIndex = some ((1 + 1) % sampleGame.currentPlayerOrder.length)) :=
  sender_role_not_checked (fun i => i) sampleGame 1 ⟨sampleHand1.map some⟩ 0 1
    rfl (by decide) rfl rfl (by decide) (by decide)

/-! ### Instances of the rejection and acceptance theorems -/

/-- Witness of C8: in `sampleGame` socket `0` attacks with the six of
  diamonds, which it does not hold. -/
theorem handleAttack_rejects_missing_card_witness :
    handleAttack sampleGame 0 ⟨"♦", "6"⟩
      = some (sampleGame, [(0, Msg.error "У вас нет такой карты")]) :=
  handleAttack_rejects_missing_card sampleGame 0 ⟨"♦", "6"⟩ ⟨sampleHand0.map some⟩
    rfl (by decide) (by decide) (by decide)

/-- Witness of C9: in `sampleGame` socket `0` attacks with the ace of clubs. -/
theorem handleAttack_moves_card_witness :
    ∃ s1 evs, handleAttack sampleGame 0 ⟨"♣", "Т"⟩ = some (s1, evs) ∧
      s1.tableCards = sampleGame.tableCards ++ [(0, ⟨"♣", "Т"⟩)] ∧
      mapGet s1.clients 0 = some { hand := (sampleHand0.erase ⟨"♣", "Т"⟩).map some } ∧
      (sampleHand0.erase ⟨"♣", "Т"⟩).length + 1 = sampleHand0.length ∧
      (∀ w, w ≠ 0 → mapGet s1.clients w = mapGet sampleGame.clients w) ∧
      s1.attackerIndex = some ((0 + 1) % sampleGame.currentPlayerOrder.length) ∧
      s1.defenderIndex = some ((1 + 1) % sampleGame.currentPlayerOrder.length) ∧
      s1.currentPlayerOrder = sampleGame.currentPlayerOrder ∧
      s1.playersScores = sampleGame.playersScores :=
  handleAttack_moves_card sampleGame 0 ⟨"♣", "Т"⟩ ⟨sampleHand0.map some⟩ sampleHand0 0 1
    rfl rfl (by decide) rfl rfl (by decide) (by decide)

/-- Instance of the rejection by `handleDefend`: after the attack with the ace
  of clubs, socket `1` defends with the eight of clubs, which it holds and
  which does not beat the ace. -/
theorem handleDefend_rejects_witness :
    ∃ message, handleDefend sampleAfterAttack 1 ⟨"♣", "8"⟩
      = some (sampleAfterAttack, [(1, Msg.error message)]) :=
  handleDefend_rejects sampleAfterAttack 1 ⟨"♣", "8"⟩ ⟨sampleHand1.map some⟩
    (0, ⟨"♣", "Т"⟩) [] rfl (by decide) (by decide) rfl
    (Or.inr ⟨⟨"♦", "В"⟩, rfl, by decide⟩)

/-! ### Rule evaluator as a relation, scoring and winners -/

/-- C20: `canBeat` is irreflexive and asymmetric, for every trump suit: no card
  beats itself, and a card that beats another is not beaten by it.  It holds
  for all cards, so for those with deck ranks. -/
theorem canBeat_irreflexive_asymmetric (a b : Card) (trumpSuit : String) :
    canBeat a a trumpSuit = false ∧
    (canBeat a b trumpSuit = true → canBeat b a trumpSuit = false) := by
  constructor
  · unfold canBeat
    split_ifs with h1 h2
    · omega
    · exact absurd h2.1 h2.2
    · rfl
  · intro hab
    unfold canBeat at hab ⊢
    split_ifs at hab with h1 h2
    · split_ifs with h3 h4
      · omega
      · exact absurd (h1.1.trans h4.1) h4.2
      · rfl
    · split_ifs with h3 h4
      · exact absurd (h3.1.trans h2.1) h2.2
      · exact absurd h4.1 h2.2
      · rfl

theorem mapGet_mapSet_ne {β : Type} (l : List (Ws × β)) (ws w : Ws) (v : β) (h : w ≠ ws) :
    mapGet (mapSet l ws v) w = mapGet l w := by
  rw [mapGet_mapSet, if_neg h]

theorem mapGet_mapSet_self {β : Type} (l : List (Ws × β)) (ws : Ws) (v : β) :
    mapGet (mapSet l ws v) ws = some v := by
  rw [mapGet_mapSet, if_pos rfl]

theorem tally_not_key (clients : List (Ws × Player)) (scores : List (Ws × Nat)) (ws : Ws)
    (h : ws ∉ clients.map (fun entry => entry.1)) :
    mapGet (tallyRoundScores clients scores) ws = mapGet scores ws := by
  unfold tallyRoundScores
  induction clients generalizing scores with
  | nil => rfl
  | cons e rest ih =>
    have hne : ws ≠ e.1 := fun hh => h (by simp [hh])
    have hrest : ws ∉ rest.map (fun entry => entry.1) := fun hh => h (by simp [hh])
    rw [List.foldl_cons, ih _ hrest]
    split_ifs
    · exact mapGet_mapSet_ne _ _ _ _ hne
    · rfl

/-- C12: for seated players with distinct sockets and any score mapping, the
  scoring loop of `endRound` gives each player with a non-empty hand the old
  score (`0` if there was none) plus `1`, leaves the entry of each player with
  an empty hand as it was, and leaves every other socket as it was; with
  hands of `0`, `3` and `2` cards and no scores yet, the sockets `1` and `2`
  get the score `1` and socket `0` gets no entry. -/
theorem tallyRoundScores_spec (clients : List (Ws × Player)) (scores : List (Ws × Nat))
    (hkeys : (clients.map (fun entry => entry.1)).Nodup) :
    (∀ entry ∈ clients, entry.2.hand.length > 0 →
      mapGet (tallyRoundScores clients scores) entry.1
        = some ((mapGet scores entry.1).getD 0 + 1)) ∧
    (∀ entry ∈ clients, entry.2.hand.length = 0 →
      mapGet (tallyRoundScores clients scores) entry.1 = mapGet scores entry.1) ∧
    (∀ ws, ws ∉ clients.map (fun entry => entry.1) →
      mapGet (tallyRoundScores clients scores) ws = mapGet scores ws) ∧
    tallyRoundScores settledClients [] = [(1, 1), (2, 1)] := by
  refine ⟨?_, ?_, fun ws h => tally_not_key clients scores ws h, by decide⟩
  · induction clients generalizing scores with
    | nil => intro entry he; simp at he
    | cons e rest ih =>
      obtain ⟨hnot, hrest⟩ := List.nodup_cons.mp hkeys
      intro entry he hpos
      rcases List.mem_cons.mp he with rfl | hmem
      · have h1 : tallyRoundScores (entry :: rest) scores
            = tallyRoundScores rest (mapSet scores entry.1 ((mapGet scores entry.1).getD 0 + 1)) := by
          simp [tallyRoundScores, List.foldl_cons, hpos]
        rw [h1, tally_not_key rest _ entry.1 hnot, mapGet_mapSet_self]
      · have hne : entry.1 ≠ e.1 := by
          intro hh
          exact hnot (List.mem_map.mpr ⟨entry, hmem, hh⟩)
        have h1 : tallyRoundScores (e :: rest) scores
            = tallyRoundScores rest (if e.2.hand.length > 0 then
                mapSet scores e.1 ((mapGet scores e.1).getD 0 + 1) else scores) := by
          simp [tallyRoundScores, List.foldl_cons]
        rw [h1, ih _ hrest entry hmem hpos]
        split_ifs
        · rw [mapGet_mapSet_ne _ _ _ _ hne]
        · rfl
  · induction clients generalizing scores with
    | nil => intro entry he; simp at he
    | cons e rest ih =>
      obtain ⟨hnot, hrest⟩ := List.nodup_cons.mp hkeys
      intro entry he hzero
      rcases List.mem_cons.mp he with rfl | hmem
      · have h1 : tallyRoundScores (entry :: rest) scores = tallyRoundScores rest scores := by
          simp [tallyRoundScores, List.foldl_cons, hzero]
        rw [h1, tally_not_key rest _ entry.1 hnot]
      · have hne : entry.1 ≠ e.1 := by
          intro hh
          exact hnot (List.mem_map.mpr ⟨entry, hmem, hh⟩)
        have h1 : tallyRoundScores (e :: rest) scores
            = tallyRoundScores rest (if e.2.hand.length > 0 then
                mapSet scores e.1 ((mapGet scores e.1).getD 0 + 1) else scores) := by
          simp [tallyRoundScores, List.foldl_cons]
        rw [h1, ih _ hrest entry hmem hzero]
        split_ifs
        · rw [mapGet_mapSet_ne _ _ _ _ hne]
        · rfl

theorem minScore_spec (values : List Nat) (hne : values ≠ []) :
    ∃ m, minScore values = some m ∧ (∀ x ∈ values, m ≤ x) ∧ m ∈ values := by
  induction values with
  | nil => exact absurd rfl hne
  | cons x rest ih =>
    cases rest with
    | nil => exact ⟨x, by simp [minScore], by simp, by simp⟩
    | cons y more =>
      obtain ⟨m, hm, hle, hmem⟩ := ih (by simp)
      refine ⟨min x m, by simp only [minScore] at hm ⊢; rw [hm], ?_, ?_⟩
      · intro z hz
        rcases List.mem_cons.mp hz with rfl | hz
        · exact Nat.min_le_left _ _
        · exact Nat.le_trans (Nat.min_le_right _ _) (hle z hz)
      · rcases Nat.le_total x m with h | h
        · rw [Nat.min_eq_left h]; exact List.mem_cons_self _ _
        · rw [Nat.min_eq_right h]; exact List.mem_cons_of_mem _ hmem

/-- C13: for a non-empty score mapping there is a minimum `m` of all scores
  (a lower bound that some player attains), the winners that `announceWinner`
  broadcasts in `game_over` are exactly the entries of the mapping whose
  score is `m`; the scores `{0: 1, 1: 1, 2: 2}` give the winners `0` and `1`. -/
theorem winners_are_minimum_scorers (s : State) (hne : s.playersScores ≠ []) :
    ∃ m, (∀ entry ∈ s.playersScores, m ≤ entry.2) ∧
      (∃ entry ∈ s.playersScores, entry.2 = m) ∧
      (∀ entry, entry ∈ winners s.playersScores ↔ entry ∈ s.playersScores ∧ entry.2 = m) ∧
      announceWinner s = broadcast s (Msg.game_over (winners s.playersScores)) ∧
      winners [(0, 1), (1, 1), (2, 2)] = [(0, 1), (1, 1)] := by
  have hv : s.playersScores.map (fun e => e.2) ≠ [] := by simpa using hne
  obtain ⟨m, hm, hle, hmem⟩ := minScore_spec _ hv
  obtain ⟨entry, hentry, he⟩ := List.mem_map.mp hmem
  refine ⟨m, fun e h => hle _ (List.mem_map.mpr ⟨e, h, rfl⟩), ⟨entry, hentry, he⟩, ?_, rfl,
    by decide⟩
  intro e
  unfold winners
  rw [List.mem_filter, hm]
  simp only [decide_eq_true_eq, Option.some.injEq]
  exact ⟨fun h => ⟨h.1, h.2.symm⟩, fun h => ⟨h.1, h.2.symm⟩⟩

theorem mapSet_same {β : Type} (l : List (Ws × β)) (ws : Ws) (v : β)
    (h : mapGet l ws = some v) : mapSet l ws v = l := by
  induction l with
  | nil => simp [mapGet] at h
  | cons e rest ih =>
    obtain ⟨k, v0⟩ := e
    by_cases hk : k = ws
    · simp only [mapGet, hk, if_true, Option.some.injEq] at h
      simp [mapSet, hk, h]
    · simp only [mapGet, hk, if_false] at h
      simp [mapSet, hk, ih h]

theorem filter_ne_self (hand : List (Option Card)) (card : Card)
    (hnot : some card ∉ hand) :
    hand.filter (fun e => decide (e ≠ some card)) = hand := by
  rw [List.filter_eq_self]
  intro e he
  have : e ≠ some card := fun hh => hnot (hh ▸ he)
  simpa using this

/-- C15 fails on the code: `removeCardFromHand` for the six of diamonds, which
  the hand of socket `0` in `sampleGame` does not hold, returns normally, with
  the state as it was. -/
theorem removeCardFromHand_absent_returns :
    some (⟨"♦", "6"⟩ : Card) ∉ sampleHand0.map some ∧
    mapGet sampleGame.clients 0 = some ⟨sampleHand0.map some⟩ ∧
    removeCardFromHand sampleGame 0 ⟨sampleHand0.map some⟩ ⟨"♦", "6"⟩ = some sampleGame := by
  decide

/-- C15 as amended: for a hand of cards only that contains no entry with the
  suit and rank of `card`, the filter of `removeCardFromHand` returns the hand
  as it was, and `removeCardFromHand` on the player stored under `ws` returns
  the state as it was: nothing is signalled. -/
theorem removeCardFromHand_absent_unchanged (s : State) (ws : Ws) (player : Player)
    (card : Card) (hp : mapGet s.clients ws = some player) (hnone : none ∉ player.hand)
    (hnot : some card ∉ player.hand) :
    filterOut player.hand card = some player.hand ∧
    removeCardFromHand s ws player card = some s := by
  have hf : filterOut player.hand card = some player.hand := by
    rw [filterOut_of_no_none _ _ hnone, filter_ne_self _ _ hnot]
  refine ⟨hf, ?_⟩
  unfold removeCardFromHand
  rw [hf, Option.map_some', mapSet_same _ _ _ hp]

/-- Witness of C15 as amended: the six of diamonds and the hand of socket `0`
  in `sampleGame`. -/
theorem removeCardFromHand_absent_unchanged_witness :
    filterOut (⟨sampleHand0.map some⟩ : Player).hand ⟨"♦", "6"⟩
      = some (⟨sampleHand0.map some⟩ : Player).hand ∧
    removeCardFromHand sampleGame 0 ⟨sampleHand0.map some⟩ ⟨"♦", "6"⟩ = some sampleGame :=
  removeCardFromHand_absent_unchanged sampleGame 0 ⟨sampleHand0.map some⟩ ⟨"♦", "6"⟩
    rfl (by decide) (by decide)

/-- C16 fails on the code: in `sampleGame`, the state `startGame` leaves at a
  table of two, the table is empty, and the `defend` of socket `1` with the
  eight of clubs, which it holds, throws on reading `tableCards[0].card`. -/
theorem handleDefend_throws_on_empty_table :
    startGame (fun i => i) (lobby 2) = some (sampleGame, sampleGameEvents) ∧
    sampleGame.tableCards = [] ∧
    some (⟨"♣", "8"⟩ : Card) ∈ sampleHand1.map some ∧
    mapGet sampleGame.clients 1 = some ⟨sampleHand1.map some⟩ ∧
    handleDefend sampleGame 1 ⟨"♣", "8"⟩ = none :=
  ⟨startGame_sample, rfl, by decide, rfl, by decide⟩

theorem mapDelete_keys {β : Type} (l : List (Ws × β)) (ws : Ws)
    (hkeys : (l.map (fun entry => entry.1)).Nodup) :
    ws ∉ (mapDelete l ws).map (fun entry => entry.1) := by
  induction l with
  | nil => simp [mapDelete]
  | cons e rest ih =>
    obtain ⟨k, v⟩ := e
    obtain ⟨hnot, hrest⟩ := List.nodup_cons.mp hkeys
    by_cases hk : k = ws
    · subst hk
      simpa [mapDelete] using hnot
    · simp only [mapDelete, hk, if_false, List.map_cons, List.mem_cons, not_or]
      exact ⟨fun hh => hk hh.symm, ih hrest⟩

theorem mapGet_none_of_not_key {β : Type} (l : List (Ws × β)) (ws : Ws)
    (h : ws ∉ l.map (fun entry => entry.1)) : mapGet l ws = none := by
  induction l with
  | nil => rfl
  | cons e rest ih =>
    obtain ⟨k, v⟩ := e
    have hk : ¬ k = ws := fun hh => h (by simp [hh])
    have hrest : ws ∉ rest.map (fun entry => entry.1) := fun hh => h (by simp [hh])
    simp only [mapGet, hk, if_false, ih hrest]

theorem mapGet_mapDelete_ne {β : Type} (l : List (Ws × β)) (ws w : Ws) (h : w ≠ ws) :
    mapGet (mapDelete l ws) w = mapGet l w := by
  induction l with
  | nil => rfl
  | cons e rest ih =>
    obtain ⟨k, v⟩ := e
    by_cases hk : k = ws
    · have hkw : ¬ k = w := fun hh => h (hh ▸ hk)
      simp only [mapDelete, mapGet, hk, if_true]
      rw [if_neg (fun hh => h hh.symm)]
    · by_cases hkw : k = w
      · subst hkw
        simp only [mapDelete, mapGet, hk, if_false, if_true]
      · simp only [mapDelete, mapGet, hk, hkw, if_false, ih]

/-! ### Instances of the scoring theorems -/

/-- Witness of C12: the hands of `0`, `3` and `2` cards of `settledClients`,
  no scores yet. -/
theorem tallyRoundScores_spec_witness :
    (∀ entry ∈ settledClients, entry.2.hand.length > 0 →
      mapGet (tallyRoundScores settledClients []) entry.1
        = some ((mapGet ([] : List (Ws × Nat)) entry.1).getD 0 + 1)) ∧
    (∀ entry ∈ settledClients, entry.2.hand.length = 0 →
      mapGet (tallyRoundScores settledClients []) entry.1 = mapGet [] entry.1) ∧
    (∀ ws, ws ∉ settledClients.map (fun entry => entry.1) →
      mapGet (tallyRoundScores settledClients []) ws = mapGet [] ws) ∧
    tallyRoundScores settledClients [] = [(1, 1), (2, 1)] :=
  tallyRoundScores_spec settledClients [] (by decide)

/-- Witness of C13: the score mapping `{0: 1, 1: 1, 2: 2}` of `tiedScores`. -/
theorem winners_are_minimum_scorers_witness :
    ∃ m, (∀ entry ∈ tiedScores.playersScores, m ≤ entry.2) ∧
      (∃ entry ∈ tiedScores.playersScores, entry.2 = m) ∧
      (∀ entry, entry ∈ winners tiedScores.playersScores ↔
        entry ∈ tiedScores.playersScores ∧ entry.2 = m) ∧
      announceWinner tiedScores
        = broadcast tiedScores (Msg.game_over (winners tiedScores.playersScores)) ∧
      winners [(0, 1), (1, 1), (2, 2)] = [(0, 1), (1, 1)] :=
  winners_are_minimum_scorers tiedScores (by decide)

/-! ### Defence, settlement and leaving -/

set_option maxRecDepth 100000 in
/-- C14 fails on the code: in the game of three `settleInputs` (scores reset by
  `startGame`) the hands end with `0`, `3` and `2` cards, `playersScores` only
  has entries for the sockets `1` and `2`, and the winners of every `game_over`
  event are these two, not socket `0`, the only player who was not penalised. -/
theorem unpenalised_player_not_winner :
    (runInputs (fun i => i) (lobby 3) settleInputs).map
        (fun r => (r.1.clients.map (fun entry => entry.2.hand.length), r.1.playersScores,
          r.2.filter (fun e => e.2.isGameOver)))
      = some ([0, 3, 2], [(1, 1), (2, 1)],
          [(0, Msg.game_over [(1, 1), (2, 1)]), (1, Msg.game_over [(1, 1), (2, 1)]),
           (2, Msg.game_over [(1, 1), (2, 1)])]) := by
  decide

/-- C17 fails on the code: after the close of socket `1` in `sampleGame` the
  socket is no longer in `clients`, but `currentPlayerOrder` is still `[0, 1]`:
  it holds the socket and has the length it had. -/
theorem close_keeps_turn_order :
    step (fun i => i) sampleGame (Input.close 1) = some (onClose sampleGame 1, []) ∧
    mapGet (onClose sampleGame 1).clients 1 = none ∧
    (onClose sampleGame 1).currentPlayerOrder = [0, 1] ∧
    sampleGame.currentPlayerOrder = [0, 1] := by
  decide

/-- C17 as amended: after the `close` handler of `ws` (sockets of `clients`
  distinct) the socket is no longer a key of `clients` nor open, every other
  socket keeps its entry, and `currentPlayerOrder`, `attackerIndex` and
  `defenderIndex` are what they were: the turn order is not shortened. -/
theorem onClose_spec (s : State) (ws : Ws)
    (hkeys : (s.clients.map (fun entry => entry.1)).Nodup) :
    mapGet (onClose s ws).clients ws = none ∧
    ws ∉ (onClose s ws).clients.map (fun entry => entry.1) ∧
    ws ∉ (onClose s ws).openSockets ∧
    (∀ w, w ≠ ws → mapGet (onClose s ws).clients w = mapGet s.clients w) ∧
    (onClose s ws).currentPlayerOrder = s.currentPlayerOrder ∧
    (onClose s ws).attackerIndex = s.attackerIndex ∧
    (onClose s ws).defenderIndex = s.defenderIndex := by
  have h1 := mapDelete_keys s.clients ws hkeys
  refine ⟨mapGet_none_of_not_key _ _ h1, h1, ?_,
    fun w hw => mapGet_mapDelete_ne s.clients ws w hw, rfl, rfl, rfl⟩
  simp [onClose]

/-- Witness of C17 as amended: the close of socket `1` in `sampleGame`. -/
theorem onClose_spec_witness :
    mapGet (onClose sampleGame 1).clients 1 = none ∧
    1 ∉ (onClose sampleGame 1).clients.map (fun entry => entry.1) ∧
    1 ∉ (onClose sampleGame 1).openSockets ∧
    (∀ w, w ≠ 1 → mapGet (onClose sampleGame 1).clients w = mapGet sampleGame.clients w) ∧
    (onClose sampleGame 1).currentPlayerOrder = sampleGame.currentPlayerOrder ∧
    (onClose sampleGame 1).attackerIndex = sampleGame.attackerIndex ∧
    (onClose sampleGame 1).defenderIndex = sampleGame.defenderIndex :=
  onClose_spec sampleGame 1 (by decide)

/-- C11 fails on the code: in `sampleAfterTwoAttacks` the table holds the ace
  of clubs, then the eight of clubs, the card laid last.  The nine of clubs of
  socket `0` beats the eight, yet `handleDefend` rejects it, since it does not
  beat the ace, the card of `tableCards[0]`. -/
theorem defend_judged_against_first_card :
    sampleAfterTwoAttacks.tableCards = [(0, ⟨"♣", "Т"⟩), (1, ⟨"♣", "8"⟩)] ∧
    sampleAfterTwoAttacks.trumpCard = some ⟨"♦", "В"⟩ ∧
    canBeat ⟨"♣", "9"⟩ ⟨"♣", "8"⟩ "♦" = true ∧
    canBeat ⟨"♣", "9"⟩ ⟨"♣", "Т"⟩ "♦" = false ∧
    handleDefend sampleAfterTwoAttacks 0 ⟨"♣", "9"⟩
      = some (sampleAfterTwoAttacks, [(0, Msg.error "Эту карту побить нельзя")]) := by
  decide

/-- C11 as amended: with a card on the table and a trump card set, the defence
  of a (seated) sender who holds `card`, in a hand of cards only, is decided
  by `canBeat` against the card of `tableCards[0]`, the first entry of the
  table: if it is false the state is returned unchanged with the error
  message for the sender, if it is true the defence is accepted, `(ws, card)`
  is appended to the table and the round is settled. -/
theorem handleDefend_decided_by_first_card (s : State) (ws : Ws) (card : Card)
    (player : Player) (first : Ws × Card) (rest : List (Ws × Card)) (trump : Card)
    (hp : mapGet s.clients ws = some player) (hnone : none ∉ player.hand)
    (hmem : some card ∈ player.hand) (htable : s.tableCards = first :: rest)
    (htrump : s.trumpCard = some trump) :
    (canBeat card first.2 trump.suit = false →
      handleDefend s ws card
        = some (s, send s ws (Msg.error "Эту карту побить нельзя"))) ∧
    (canBeat card first.2 trump.suit = true →
      ∃ s1 evs, handleDefend s ws card = some (s1, evs) ∧
        s1.tableCards = s.tableCards ++ [(ws, card)] ∧ s1.gameInProgress = false) := by
  have hh := handHas_of_no_none player.hand card hnone
  constructor
  · intro hb
    unfold handleDefend
    simp only [hp, hh, hmem, decide_True, htable, List.head?_cons, htrump, hb]
    simp
  · intro hb
    unfold handleDefend
    simp only [hp, hh, hmem, decide_True, htable, List.head?_cons, htrump, hb,
      removeCardFromHand, filterOut_of_no_none _ _ hnone, Option.map_some']
    simp [endRound]

/-- Witness of C11 as amended: socket `0` in `sampleAfterTwoAttacks`, holding
  the nine of clubs. -/
theorem handleDefend_decided_by_first_card_witness :
    (canBeat ⟨"♣", "9"⟩ ((0, ⟨"♣", "Т"⟩) : Ws × Card).2 (⟨"♦", "В"⟩ : Card).suit = false →
      handleDefend sampleAfterTwoAttacks 0 ⟨"♣", "9"⟩
        = some (sampleAfterTwoAttacks,
            send sampleAfterTwoAttacks 0 (Msg.error "Эту карту побить нельзя"))) ∧
    (canBeat ⟨"♣", "9"⟩ ((0, ⟨"♣", "Т"⟩) : Ws × Card).2 (⟨"♦", "В"⟩ : Card).suit = true →
      ∃ s1 evs, handleDefend sampleAfterTwoAttacks 0 ⟨"♣", "9"⟩ = some (s1, evs) ∧
        s1.tableCards = sampleAfterTwoAttacks.tableCards ++ [(0, ⟨"♣", "9"⟩)] ∧
        s1.gameInProgress = false) :=
  handleDefend_decided_by_first_card sampleAfterTwoAttacks 0 ⟨"♣", "9"⟩
    ⟨(sampleHand0.erase ⟨"♣", "Т"⟩).map some⟩ (0, ⟨"♣", "Т"⟩) [(1, ⟨"♣", "8"⟩)] ⟨"♦", "В"⟩
    rfl (by decide) (by decide) rfl rfl

/-! ### Seats -/

theorem length_mapSet_le {β : Type} (l : List (Ws × β)) (ws : Ws) (v : β) :
    (mapSet l ws v).length ≤ l.length + 1 := by
  induction l with
  | nil => simp [mapSet]
  | cons e rest ih =>
    obtain ⟨k, v0⟩ := e
    by_cases hk : k = ws
    · simp [mapSet, hk]
    · simp only [mapSet, hk, if_false, List.length_cons]
      omega

theorem length_mapDelete_le {β : Type} (l : List (Ws × β)) (ws : Ws) :
    (mapDelete l ws).length ≤ l.length := by
  induction l with
  | nil => simp [mapDelete]
  | cons e rest ih =>
    obtain ⟨k, v0⟩ := e
    by_cases hk : k = ws
    · simp [mapDelete, hk]
    · simp only [mapDelete, hk, if_false, List.length_cons]
      omega

theorem startGame_clients_length (rand : Nat → Nat) (s s1 : State) (evs : List Event)
    (h : startGame rand s = some (s1, evs)) : s1.clients.length = s.clients.length := by
  unfold startGame at h
  simp only [Option.map_eq_some'] at h
  obtain ⟨_, _, h2⟩ := h
  have h3 := (Prod.mk.inj h2).1
  subst h3
  have := congrArg List.length (dealAll_keys s s.clients (createDeck rand))
  simpa using this

theorem onConnection_clients_le (rand : Nat → Nat) (s s1 : State) (ws : Ws)
    (evs : List Event) (h : onConnection rand s ws = some (s1, evs))
    (hle : s.clients.length ≤ maxPlayers) : s1.clients.length ≤ maxPlayers := by
  unfold onConnection at h
  split_ifs at h with hfull
  · obtain ⟨rfl, _⟩ := Prod.mk.inj (Option.some.inj h)
    exact hle
  · have hset := length_mapSet_le s.clients ws ({ hand := [] } : Player)
    simp only [] at h
    split at h
    · exact absurd h (by simp)
    · rename_i s2 evs2 htry
      obtain ⟨rfl, _⟩ := Prod.mk.inj (Option.some.inj h)
      unfold tryStartGame at htry
      split_ifs at htry
      · rw [startGame_clients_length rand _ _ _ htry]
        simp only []
        omega
      · obtain ⟨rfl, _⟩ := Prod.mk.inj (Option.some.inj htry)
        simp only []
        omega

theorem step_join_leave_clients_le (rand : Nat → Nat) (s s1 : State) (input : Input)
    (evs : List Event) (ha : input.isJoinOrLeave = true)
    (h : step rand s input = some (s1, evs)) (hle : s.clients.length ≤ maxPlayers) :
    s1.clients.length ≤ maxPlayers := by
  cases input with
  | message ws msg => simp [Input.isJoinOrLeave] at ha
  | connection ws => exact onConnection_clients_le rand s s1 ws evs h hle
  | close ws =>
    simp only [step, Option.some.injEq, Prod.mk.injEq] at h
    obtain ⟨rfl, _⟩ := h
    exact Nat.le_trans (length_mapDelete_le s.clients ws) hle

theorem reachable_head {allowed : Input → Prop} (rand : Nat → Nat) (input : Input)
    (evs : List Event) (s s1 t : State) (ha : allowed input)
    (hstep : step rand s input = some (s1, evs)) (h : Reachable allowed s1 t) :
    Reachable allowed s t := by
  induction h with
  | refl => exact Reachable.tail rand input evs (Reachable.refl _) ha hstep
  | tail rand1 input1 evs1 _ ha1 hstep1 ih => exact Reachable.tail rand1 input1 evs1 ih ha1 hstep1

theorem runInputs_reachable {allowed : Input → Prop} (rand : Nat → Nat) (inputs : List Input)
    (s t : State) (evs : List Event) (hall : ∀ input ∈ inputs, allowed input)
    (h : runInputs rand s inputs = some (t, evs)) : Reachable allowed s t := by
  induction inputs generalizing s evs with
  | nil =>
    simp only [runInputs, Option.some.injEq, Prod.mk.injEq] at h
    obtain ⟨rfl, _⟩ := h
    exact Reachable.refl _
  | cons input rest ih =>
    simp only [runInputs] at h
    split at h
    · exact absurd h (by simp)
    · rename_i s1 evs1 hstep
      split at h
      · exact absurd h (by simp)
      · rename_i s2 more hrun
        obtain ⟨rfl, _⟩ := Prod.mk.inj (Option.some.inj h)
        exact reachable_head rand input evs1 s s1 s2 (hall input (List.mem_cons_self _ _))
          hstep (ih s1 more (fun i hi => hall i (List.mem_cons_of_mem _ hi)) hrun)

/-- C18: in every state reached from the initial state by connections and
  closes of sockets at most `maxPlayers` sockets are seated, and when
  `maxPlayers` are seated the connection of a further socket `ws` emits one
  event, the error message to `ws`, and leaves `clients` (the seats and
  hands) and every variable of the game as they were. -/
theorem seats_at_most_six (rand : Nat → Nat) (s : State) (ws : Ws)
    (hreach : Reachable (fun input => input.isJoinOrLeave = true) initialState s) :
    s.clients.length ≤ maxPlayers ∧
    (s.clients.length = maxPlayers →
      ∃ s1, onConnection rand s ws = some (s1, [(ws, Msg.error "Лимит игроков достигнут")]) ∧
        s1.clients = s.clients ∧ s1.deck = s.deck ∧
        s1.gameInProgress = s.gameInProgress ∧ s1.tableCards = s.tableCards ∧
        s1.currentPlayerOrder = s.currentPlayerOrder ∧
        s1.attackerIndex = s.attackerIndex ∧ s1.defenderIndex = s.defenderIndex ∧
        s1.trumpCard = s.trumpCard ∧ s1.playersScores = s.playersScores) := by
  constructor
  · induction hreach with
    | refl => simp [initialState]
    | tail rand1 input evs _ ha hstep ih =>
      exact step_join_leave_clients_le rand1 _ _ input evs ha hstep ih
  · intro hfull
    refine ⟨{ s with openSockets := s.openSockets.filter (fun w => w ≠ ws) }, ?_,
      rfl, rfl, rfl, rfl, rfl, rfl, rfl, rfl, rfl⟩
    unfold onConnection
    rw [if_pos (by omega)]

theorem runInputs_reachable_state {allowed : Input → Prop} (rand : Nat → Nat)
    (inputs : List Input) (s t : State) (hall : ∀ input ∈ inputs, allowed input)
    (h : (runInputs rand s inputs).map (fun r => r.1) = some t) : Reachable allowed s t := by
  cases hrun : runInputs rand s inputs with
  | none => rw [hrun] at h; exact absurd h (by simp)
  | some r =>
    rw [hrun] at h
    obtain ⟨t1, evs⟩ := r
    have ht : t1 = t := Option.some.inj h
    subst ht
    exact runInputs_reachable rand inputs s t1 evs hall hrun

set_option maxRecDepth 100000 in
theorem runInputs_join :
    (runInputs (fun i => i) initialState joinInputs).map (fun r => r.1) = some fullTable := by
  decide

/-- Witness of C18: the table of six reached by `joinInputs`, and a seventh
  socket `6`. -/
theorem seats_at_most_six_witness :
    fullTable.clients.length ≤ maxPlayers ∧
    (fullTable.clients.length = maxPlayers →
      ∃ s1, onConnection (fun i => i) fullTable 6
          = some (s1, [(6, Msg.error "Лимит игроков достигнут")]) ∧
        s1.clients = fullTable.clients ∧ s1.deck = fullTable.deck ∧
        s1.gameInProgress = fullTable.gameInProgress ∧
        s1.tableCards = fullTable.tableCards ∧
        s1.currentPlayerOrder = fullTable.currentPlayerOrder ∧
        s1.attackerIndex = fullTable.attackerIndex ∧
        s1.defenderIndex = fullTable.defenderIndex ∧
        s1.trumpCard = fullTable.trumpCard ∧ s1.playersScores = fullTable.playersScores) :=
  seats_at_most_six (fun i => i) fullTable 6
    (runInputs_reachable_state (fun i => i) joinInputs initialState fullTable
      (by decide) runInputs_join)

/-! ### The shuffle as a bijection -/

theorem swap_getElem?_of_ne (d : List Card) (i j k : Nat) (hi : k ≠ i) (hj : k ≠ j) :
    (swap d i j)[k]? = d[k]? := by
  unfold swap
  split
  · rw [List.getElem?_set_ne (fun h => hj h.symm), List.getElem?_set_ne (fun h => hi h.symm)]
  · rfl

theorem swap_getElem?_left (d : List Card) (i j : Nat) (hi : i < d.length)
    (hj : j < d.length) : (swap d i j)[i]? = d[j]? := by
  unfold swap
  rw [List.getElem?_eq_getElem hi, List.getElem?_eq_getElem hj]
  simp only []
  by_cases hij : i = j
  · subst hij
    rw [List.getElem?_set]
    simp [hi]
  · rw [List.getElem?_set_ne (fun h => hij h.symm), List.getElem?_set]
    simp [hi]

theorem swap_length (d : List Card) (i j : Nat) : (swap d i j).length = d.length :=
  (swap_perm d i j).length_eq

theorem shuffleFrom_getElem?_gt (rand : Nat → Nat) (hv : ∀ k, rand k ≤ k) (i : Nat)
    (d : List Card) (k : Nat) (hk : i < k) : (shuffleFrom rand i d)[k]? = d[k]? := by
  induction i generalizing d with
  | zero => rfl
  | succ n ih =>
    have h1 := hv (n + 1)
    simp only [shuffleFrom]
    rw [ih _ (by omega), swap_getElem?_of_ne _ _ _ _ (by omega) (by omega)]

theorem shuffleFrom_getElem?_top (rand : Nat → Nat) (hv : ∀ k, rand k ≤ k) (n : Nat)
    (d : List Card) (hn : n + 1 < d.length) :
    (shuffleFrom rand (n + 1) d)[n + 1]? = d[rand (n + 1)]? := by
  have h1 := hv (n + 1)
  simp only [shuffleFrom]
  rw [shuffleFrom_getElem?_gt rand hv n _ (n + 1) (by omega),
    swap_getElem?_left d (n + 1) (rand (n + 1)) hn (by omega)]

theorem shuffleFrom_congr (r1 r2 : Nat → Nat) (i : Nat) (d : List Card)
    (h : ∀ k, 1 ≤ k → k ≤ i → r1 k = r2 k) : shuffleFrom r1 i d = shuffleFrom r2 i d := by
  induction i generalizing d with
  | zero => rfl
  | succ n ih =>
    simp only [shuffleFrom]
    rw [h (n + 1) (by omega) (by omega)]
    exact ih _ (fun k h1 h2 => h k h1 (by omega))

theorem shuffleFrom_injective (r1 r2 : Nat → Nat) (hv1 : ∀ k, r1 k ≤ k)
    (hv2 : ∀ k, r2 k ≤ k) (i : Nat) (d : List Card) (hn : d.Nodup) (hi : i < d.length)
    (h : shuffleFrom r1 i d = shuffleFrom r2 i d) :
    ∀ k, 1 ≤ k → k ≤ i → r1 k = r2 k := by
  induction i generalizing d with
  | zero => intro k h1 h2; omega
  | succ n ih =>
    have htop : d[r1 (n + 1)]? = d[r2 (n + 1)]? := by
      rw [← shuffleFrom_getElem?_top r1 hv1 n d hi, ← shuffleFrom_getElem?_top r2 hv2 n d hi, h]
    have h1 := hv1 (n + 1)
    have heq : r1 (n + 1) = r2 (n + 1) := List.getElem?_inj (by omega) hn htop
    simp only [shuffleFrom] at h
    rw [← heq] at h
    have hrest := ih (swap d (n + 1) (r1 (n + 1)))
      ((swap_perm d _ _).nodup_iff.mpr hn) (by rw [swap_length]; omega) h
    intro k hk1 hk2
    rcases Nat.lt_or_ge k (n + 1) with hlt | hge
    · exact hrest k hk1 (by omega)
    · have : k = n + 1 := by omega
      rw [this, heq]

theorem shuffleFrom_surjective (i : Nat) (d l : List Card) (hn : d.Nodup) (hp : l.Perm d)
    (hi : i < d.length) (hagree : ∀ k, i < k → l[k]? = d[k]?) :
    ∃ rand : Nat → Nat, (∀ k, rand k ≤ k) ∧ shuffleFrom rand i d = l := by
  have hln : l.Nodup := hp.nodup_iff.mpr hn
  have hlen : l.length = d.length := hp.length_eq
  induction i generalizing d with
  | zero =>
    refine ⟨fun _ => 0, fun k => Nat.zero_le k, ?_⟩
    simp only [shuffleFrom]
    apply List.ext_getElem?
    intro k
    rcases Nat.eq_zero_or_pos k with rfl | hk
    · have hpos : 0 < l.length := by omega
      have h0 : l[0]? = some l[0] := List.getElem?_eq_getElem hpos
      have hmem : l[0] ∈ d := hp.mem_iff.mp (List.getElem_mem hpos)
      obtain ⟨m, hm⟩ := List.mem_iff_getElem?.mp hmem
      rcases Nat.eq_zero_or_pos m with rfl | hmpos
      · rw [hm, h0]
      · have : l[0]? = l[m]? := by rw [hagree m hmpos, hm, h0]
        have := List.getElem?_inj (by omega) hln this
        omega
    · exact (hagree k hk).symm
  | succ n ih =>
    have hpos : n + 1 < l.length := by omega
    have htop : l[n + 1]? = some l[n + 1] := List.getElem?_eq_getElem hpos
    have hmem : l[n + 1] ∈ d := hp.mem_iff.mp (List.getElem_mem hpos)
    obtain ⟨j, hj⟩ := List.mem_iff_getElem?.mp hmem
    have hjlen : j < d.length := (List.getElem?_eq_some.mp hj).1
    have hjle : j ≤ n + 1 := by
      by_contra hgt
      have : l[n + 1]? = l[j]? := by rw [hagree j (by omega), hj, htop]
      have := List.getElem?_inj (by omega) hln this
      omega
    obtain ⟨rand1, hv1, hs1⟩ := ih (swap d (n + 1) j)
      ((swap_perm d _ _).nodup_iff.mpr hn) (hp.trans (swap_perm d _ _).symm)
      (by rw [swap_length]; omega)
      (by
        intro k hk
        rcases Nat.lt_or_ge (n + 1) k with hlt | hge
        · rw [swap_getElem?_of_ne _ _ _ _ (by omega) (by omega)]
          exact hagree k hlt
        · have : k = n + 1 := by omega
          rw [this, swap_getElem?_left d (n + 1) j hi hjlen, hj, htop])
      (by rw [swap_length]; exact hlen)
    refine ⟨fun k => if k = n + 1 then j else rand1 k, ?_, ?_⟩
    · intro k
      by_cases hk : k = n + 1
      · simp only [hk, if_true]; exact hjle
      · simp only [hk, if_false]; exact hv1 k
    · simp only [shuffleFrom, if_true]
      rw [← hs1]
      apply shuffleFrom_congr
      intro k _ hk2
      have : k ≠ n + 1 := by omega
      simp only [this, if_false]

/-- C19: every ordering `l` of the 36 cards is the deck `createDeck` returns
  for some draws in range, and for one sequence only: any two families of
  draws in range that give `l` agree at every counter `i` from `1` to `35`,
  the counters the loop uses. -/
theorem createDeck_bijective (l : List Card) (hp : l.Perm baseDeck) :
    ∃ rand, ValidDraws rand ∧ createDeck rand = l ∧
      ∀ rand2, ValidDraws rand2 → createDeck rand2 = l →
        ∀ i, 1 ≤ i → i ≤ 35 → rand2 i = rand i := by
  have hlen : l.length = 36 := hp.length_eq.trans baseDeck_length
  obtain ⟨rand, hv, hs⟩ := shuffleFrom_surjective (baseDeck.length - 1) baseDeck l
    baseDeck_nodup hp (by rw [baseDeck_length]; omega)
    (by
      intro k hk
      rw [baseDeck_length] at hk
      rw [List.getElem?_eq_none (by omega), List.getElem?_eq_none (by rw [baseDeck_length]; omega)])
  refine ⟨rand, hv, hs, ?_⟩
  intro rand2 hv2 hs2 i hi1 hi2
  exact shuffleFrom_injective rand2 rand hv2 hv (baseDeck.length - 1) baseDeck baseDeck_nodup
    (by rw [baseDeck_length]; omega) (hs2.trans hs.symm) i hi1
    (by rw [baseDeck_length]; omega)

/-- Witness of C19: the ordering that is the base deck itself. -/
theorem createDeck_bijective_witness :
    ∃ rand, ValidDraws rand ∧ createDeck rand = baseDeck ∧
      ∀ rand2, ValidDraws rand2 → createDeck rand2 = baseDeck →
        ∀ i, 1 ≤ i → i ≤ 35 → rand2 i = rand i :=
  createDeck_bijective baseDeck (List.Perm.refl _)

/-! ### Defence without a trump card -/

theorem eight_of_clubs_never_beats_ace (trumpSuit : String) :
    canBeat ⟨"♣", "8"⟩ ⟨"♣", "Т"⟩ trumpSuit = false := by
  have hrank : ¬ (rankValue "8" > rankValue "Т") := by decide
  unfold canBeat
  rw [if_neg (fun h => hrank h.2), if_neg (fun h => h.2 h.1)]

set_option maxRecDepth 100000 in
/-- C10 fails on the code at a table of six: after `sixInputs` the table holds
  the ace of clubs, no trump card is set, socket `1` is open and holds the
  eight of clubs, which beats the ace under no trump suit; yet its `defend`
  with that card throws on reading `trumpCard.suit`: no error event is
  emitted. -/
theorem handleDefend_throws_without_trump :
    (runInputs (fun i => i) (lobby 6) sixInputs).map
        (fun r => (r.1.tableCards, r.1.trumpCard, mapGet r.1.clients 1,
          decide (1 ∈ r.1.openSockets)))
      = some ([(0, ⟨"♣", "Т"⟩)], none, some ⟨sampleHand1.map some⟩, true) ∧
    (∀ trumpSuit, canBeat ⟨"♣", "8"⟩ ⟨"♣", "Т"⟩ trumpSuit = false) ∧
    (runInputs (fun i => i) (lobby 6) sixInputs).map
        (fun r => handleDefend r.1 1 ⟨"♣", "8"⟩)
      = some none := by
  refine ⟨by decide, eight_of_clubs_never_beats_ace, by decide⟩

end Durak
